import Mathlib

/-!
Verification of the minesweeper board engine (`src/main.rs`).

The Rust engine is shallowly embedded: the grid is a list of rows of cells,
`usize` indices become `Nat`, the `rand` stream of `Game::new` becomes an
explicit stream of picked coordinates, and the unbounded placement loop and
the recursive reveal are given explicit fuel (the public `Game.reveal`
supplies fuel that provably suffices, since every recursive call strictly
decreases the number of hidden cells).
-/

/-- `CellContent` from `main.rs`: a cell is a mine or empty with a stored
adjacent-mine count. -/
inductive CellContent
  | Mine
  | Empty (n : Nat)
deriving DecidableEq

/-- `CellVisibility` from `main.rs`. -/
inductive CellVisibility
  | Hidden
  | Revealed
  | Flagged
deriving DecidableEq

/-- `CellStatus` from `main.rs`: content plus visibility. -/
structure CellStatus where
  content : CellContent
  status : CellVisibility
deriving DecidableEq

/-- `CellStatus::new()`: empty with zero count, hidden. -/
def CellStatus.new : CellStatus :=
  ⟨CellContent.Empty 0, CellVisibility.Hidden⟩

/-- `GameState` from `main.rs`. -/
inductive GameState
  | Playing
  | Won
  | Lost
deriving DecidableEq

/-- `GameState::is_playing`. -/
def GameState.is_playing (s : GameState) : Bool :=
  decide (s = GameState.Playing)

/-- `Coordinate` from `main.rs`: a pair of `usize` grid indices. -/
structure Coordinate where
  x : Nat
  y : Nat
deriving DecidableEq

/-- The `Game` struct from `main.rs`: dimensions, row-major grid, status. -/
structure Game where
  width : Nat
  height : Nat
  field : List (List CellStatus)
  state : GameState
deriving DecidableEq

/-- `Game::get_cell`: `self.field.get(coord.y).and_then(|row| row.get(coord.x))`. -/
def getCell (g : Game) (coord : Coordinate) : Option CellStatus :=
  (g.field[coord.y]?).bind fun row => row[coord.x]?

/-- Writing through `Game::get_cell_mut`: replace the cell at `coord` when both
indices are in range of the actual grid, otherwise leave the game unchanged
(`get_cell_mut` returns `None` and the caller's `if let` does nothing). -/
def setCell (g : Game) (coord : Coordinate) (cell : CellStatus) : Game :=
  match g.field[coord.y]? with
  | some row => { g with field := g.field.set coord.y (row.set coord.x cell) }
  | none => g

/-- The offset range `-1..=1` used by `get_neighbours`. -/
def offsetRange : List Int := [-1, 0, 1]

/-- `Game::get_neighbours`: all offsets `(dx, dy) ∈ (-1..=1) × (-1..=1)`
applied to `coord` as signed integers, filtered to `[0,width) × [0,height)`,
cast back to `usize`.  Note the source has no filter removing `(0, 0)`, so
the list contains `coord` itself whenever `coord` is in bounds. -/
def Game.get_neighbours (g : Game) (coord : Coordinate) : List Coordinate :=
  (((offsetRange.flatMap fun dx => offsetRange.map fun dy =>
      ((coord.x : Int) + dx, (coord.y : Int) + dy))).filter fun p =>
        decide (0 ≤ p.1) && decide (p.1 < (g.width : Int)) &&
        decide (0 ≤ p.2) && decide (p.2 < (g.height : Int))).map
    fun p => Coordinate.mk p.1.toNat p.2.toNat

/-- The mine count computed for a cell inside `Game::new`: the number of
neighbours (as produced by `get_neighbours`) whose cell is a `Mine`. -/
def mine_count_at (g : Game) (coord : Coordinate) : Nat :=
  (g.get_neighbours coord).countP fun n =>
    match getCell g n with
    | some cell => decide (cell.content = CellContent.Mine)
    | none => false

/-- The count-filling pass of `Game::new` at one coordinate: if the cell is
`Empty(_)`, overwrite its count with `mine_count_at`. -/
def set_count_at (g : Game) (coord : Coordinate) : Game :=
  match getCell g coord with
  | some cell =>
    match cell.content with
    | CellContent.Empty _ =>
        setCell g coord { cell with content := CellContent.Empty (mine_count_at g coord) }
    | CellContent.Mine => g
  | none => g

/-- The double loop `for x in 0..width { for y in 0..height { ... } }` of
`Game::new` that fills in the adjacent-mine counts. -/
def compute_counts (g : Game) : Game :=
  ((List.range g.width).flatMap fun x =>
    (List.range g.height).map fun y => Coordinate.mk x y).foldl set_count_at g

/-- The freshly allocated game of `Game::new` before mine placement:
`vec![vec![CellStatus::new(); width]; height]`, state `Playing`. -/
def initGame (width height : Nat) : Game :=
  ⟨width, height, List.replicate height (List.replicate width CellStatus.new),
    GameState.Playing⟩

/-- The mine-placement `loop` of `Game::new`.  `picks` is the stream of
coordinates produced by `rng.gen_range`; `i` is the position in the stream,
`placed` the `placed_bombs` counter.  The loop body runs at least once and
breaks only after checking `placed_bombs >= mines` at the end of an
iteration; `fuel` bounds the number of iterations we unfold, with `none`
meaning the loop has not terminated within `fuel` iterations. -/
def place_loop (picks : Nat → Coordinate) (mines : Nat) :
    Nat → Nat → Nat → Game → Option Game
  | 0, _, _, _ => none
  | fuel + 1, i, placed, g =>
    let c := picks i
    let next : Game × Nat :=
      match getCell g c with
      | some cell =>
        match cell.content with
        | CellContent.Empty _ =>
            (setCell g c ⟨CellContent.Mine, CellVisibility.Hidden⟩, placed + 1)
        | CellContent.Mine => (g, placed)
      | none => (g, placed)
    if next.2 ≥ mines then some next.1
    else place_loop picks mines fuel (i + 1) next.2 next.1

/-- `Game::new`: allocate, place mines by rejection sampling, then fill in
the counts.  Parameterised by the RNG's coordinate stream and by loop fuel;
`none` means the placement loop has not terminated within `fuel` rounds. -/
def Game.new (width height mines : Nat) (picks : Nat → Coordinate)
    (fuel : Nat) : Option Game :=
  (place_loop picks mines fuel 0 0 (initGame width height)).map compute_counts

/-- `Game::is_fully_revealed_and_marked`: no cell scanned by the
`0..width × 0..height` double loop is `Hidden`. -/
def is_fully_revealed_and_marked (g : Game) : Bool :=
  (List.range g.width).all fun x =>
    (List.range g.height).all fun y =>
      match getCell g (Coordinate.mk x y) with
      | some cell => ! decide (cell.status = CellVisibility.Hidden)
      | none => true

/-- `Game::is_lost`: some cell scanned by the double loop is a revealed mine. -/
def is_lost (g : Game) : Bool :=
  (List.range g.width).any fun x =>
    (List.range g.height).any fun y =>
      match getCell g (Coordinate.mk x y) with
      | some cell =>
          decide (cell.content = CellContent.Mine) &&
          decide (cell.status = CellVisibility.Revealed)
      | none => false

/-- Total number of `Hidden` cells in the grid; used as fuel for the
recursive reveal, which strictly decreases it at every recursive call. -/
def hiddenCount (g : Game) : Nat :=
  (g.field.map (List.countP fun cell =>
    decide (cell.status = CellVisibility.Hidden))).sum

/-- `Game::reveal_field_checked` with explicit fuel for the recursion.
Faithful to the source: bail out unless `Playing`; do nothing unless the
target exists and is `Hidden`; set it `Revealed`; if its content is
`Empty(0)` recurse into every `get_neighbours` coordinate; finally transition
to `Lost` if the target was a mine, else to `Won` if no `Hidden` cell
remains. -/
def reveal_fuel : Nat → Game → Coordinate → Game
  | 0, g, _ => g
  | fuel + 1, g, coord =>
    if g.state.is_playing then
      match getCell g coord with
      | some cell =>
        if cell.status = CellVisibility.Hidden then
          let g1 := setCell g coord { cell with status := CellVisibility.Revealed }
          let g2 :=
            if cell.content = CellContent.Empty 0 then
              (g1.get_neighbours coord).foldl (fun h n => reveal_fuel fuel h n) g1
            else g1
          if cell.content = CellContent.Mine then { g2 with state := GameState.Lost }
          else if is_fully_revealed_and_marked g2 then { g2 with state := GameState.Won }
          else g2
        else g
      | none => g
    else g

/-- `Game::reveal_field_checked` itself.  The supplied fuel exceeds the
number of hidden cells, which suffices for the recursion (each nested call
starts from a state with strictly fewer hidden cells). -/
def Game.reveal (g : Game) (coord : Coordinate) : Game :=
  reveal_fuel (hiddenCount g + 1) g coord

/-- `Game::toggle_flag_checked`: bail out unless `Playing`; toggle
`Hidden ↔ Flagged` (a `Revealed` cell is written back unchanged); then, if
the target's content is a mine and no `Hidden` cell remains, transition to
`Won`. -/
def toggle_flag_checked (g : Game) (coor : Coordinate) : Game :=
  if g.state.is_playing then
    match getCell g coor with
    | some cell =>
      let newStatus :=
        if cell.status = CellVisibility.Hidden then CellVisibility.Flagged
        else if cell.status = CellVisibility.Flagged then CellVisibility.Hidden
        else cell.status
      let g1 := setCell g coor { cell with status := newStatus }
      if cell.content = CellContent.Mine ∧ is_fully_revealed_and_marked g1 then
        { g1 with state := GameState.Won }
      else g1
    | none => g
  else g

/-- A player action: a click (`reveal_field_checked`) or a right click
(`toggle_flag_checked`) at a coordinate, as wired up in the `App` component. -/
inductive PlayerAction
  | reveal (coord : Coordinate)
  | flag (coord : Coordinate)

/-- Apply one player action to the game. -/
def applyAction (g : Game) : PlayerAction → Game
  | PlayerAction.reveal coord => g.reveal coord
  | PlayerAction.flag coord => toggle_flag_checked g coord

/-- Run a sequence of player actions. -/
def playGame (g : Game) (acts : List PlayerAction) : Game :=
  acts.foldl applyAction g

/-! ### Specification-side predicates -/

/-- The grid really is a `height × width` rectangle. -/
def WellFormed (g : Game) : Prop :=
  g.field.length = g.height ∧ ∀ row ∈ g.field, row.length = g.width

/-- No cell of the grid is `Hidden`. -/
def noHiddenCell (g : Game) : Prop :=
  ∀ c cell, getCell g c = some cell → cell.status ≠ CellVisibility.Hidden

/-- Some mine cell is `Revealed`. -/
def HasRevealedMine (g : Game) : Prop :=
  ∃ c cell, getCell g c = some cell ∧ cell.content = CellContent.Mine ∧
    cell.status = CellVisibility.Revealed

/-- Every cell of the grid is `Hidden` (a fresh board). -/
def allHidden (g : Game) : Prop :=
  ∀ c cell, getCell g c = some cell → cell.status = CellVisibility.Hidden

/-- Every `Empty` cell stores exactly the number of mines among its
neighbours. -/
def CorrectCounts (g : Game) : Prop :=
  ∀ c cell n, getCell g c = some cell → cell.content = CellContent.Empty n →
    n = mine_count_at g c

/-- Two indices at Chebyshev distance at most one. -/
def near (a b : Nat) : Prop := a ≤ b + 1 ∧ b ≤ a + 1

/-- 8-connected grid adjacency as the specification words it: the 3×3 block
around a cell, minus the cell itself, clipped to the board. -/
def Adjacent (width height : Nat) (c d : Coordinate) : Prop :=
  c ≠ d ∧ d.x < width ∧ d.y < height ∧ near c.x d.x ∧ near c.y d.y

/-- Total number of `Mine` cells in the grid. -/
def mines_total (g : Game) : Nat :=
  (g.field.map (List.countP fun cell =>
    decide (cell.content = CellContent.Mine))).sum

/-- Total number of `Empty` cells in the grid. -/
def empty_total (g : Game) : Nat :=
  (g.field.map (List.countP fun cell =>
    decide (cell.content ≠ CellContent.Mine))).sum

/-- The connected region of hidden `Empty(0)` cells containing `c`
(the flood-fill region of the specification): chains of 8-adjacent cells
that are all `Hidden` with content `Empty(0)`. -/
inductive RegionCell (g : Game) (c : Coordinate) : Coordinate → Prop
  | base : (∃ cell, getCell g c = some cell ∧
      cell.status = CellVisibility.Hidden ∧
      cell.content = CellContent.Empty 0) → RegionCell g c c
  | step {d e : Coordinate} : RegionCell g c d →
      (∃ cell, getCell g e = some cell ∧
        cell.status = CellVisibility.Hidden ∧
        cell.content = CellContent.Empty 0) →
      Adjacent g.width g.height d e → RegionCell g c e

/-- The border of the flood-fill region: hidden cells with a nonzero stored
count that are 8-adjacent to some region cell. -/
def BorderCell (g : Game) (c d : Coordinate) : Prop :=
  (∃ cell n, getCell g d = some cell ∧
    cell.status = CellVisibility.Hidden ∧
    cell.content = CellContent.Empty n ∧ n ≠ 0) ∧
  ∃ e, RegionCell g c e ∧ Adjacent g.width g.height e d

/-- One cell evolving during a reveal: content untouched, and the status
either untouched or stepped from `Hidden` to `Revealed`. -/
def cellEvolves (a b : CellStatus) : Prop :=
  b.content = a.content ∧
    (b.status = a.status ∨
      (a.status = CellVisibility.Hidden ∧ b.status = CellVisibility.Revealed))

/-- A board evolving during a reveal: same dimensions, every cell evolves. -/
def evolves (g g' : Game) : Prop :=
  g'.width = g.width ∧ g'.height = g.height ∧
    List.Forall₂ (List.Forall₂ cellEvolves) g.field g'.field

/-- Same geometry and the same cell contents (statuses are unconstrained). -/
def sameBoard (g g' : Game) : Prop :=
  g'.width = g.width ∧ g'.height = g.height ∧
    ∀ d, Option.map CellStatus.content (getCell g' d)
      = Option.map CellStatus.content (getCell g d)

/-- Relative closure of the newly revealed cells: except on `S`, every cell
that was `Hidden` on the original board `g0` and is now `Revealed` with
content `Empty(0)` has no `Hidden` cell among its neighbours. -/
def NewClosedExcept (g0 g : Game) (S : Coordinate → Prop) : Prop :=
  ∀ d celld0 celld, ¬ S d →
    getCell g0 d = some celld0 → celld0.status = CellVisibility.Hidden →
    getCell g d = some celld → celld.status = CellVisibility.Revealed →
    celld.content = CellContent.Empty 0 →
    ∀ e celle, e ∈ g0.get_neighbours d → getCell g e = some celle →
      celle.status ≠ CellVisibility.Hidden

/-- Preconditions threaded through the reveal cascade, relative to the
original board `g0`; `S` is the set of newly revealed cells whose closure
obligation is still pending. -/
def RevealPre (g0 : Game) (fuel : Nat) (g : Game) (c : Coordinate)
    (S : Coordinate → Prop) : Prop :=
  WellFormed g0 ∧ CorrectCounts g0 ∧ evolves g0 g ∧ hiddenCount g ≤ fuel ∧
  (g.state = GameState.Playing ∨ noHiddenCell g) ∧
  (∀ cell0, getCell g0 c = some cell0 → cell0.content ≠ CellContent.Mine) ∧
  NewClosedExcept g0 g S

/-- Postconditions of one cascade call `reveal_fuel fuel g c = g2`: the state
is unchanged or `Won` with nothing hidden; closure obligations are
preserved, and discharged for `c` when the target was hidden; the target is
not hidden afterwards; no mine becomes revealed. -/
def RevealPost (g0 g : Game) (c : Coordinate) (S : Coordinate → Prop)
    (g2 : Game) : Prop :=
  (g2.state = g.state ∨ (g2.state = GameState.Won ∧ noHiddenCell g2)) ∧
  NewClosedExcept g0 g2 S ∧
  (∀ celld, getCell g2 c = some celld →
    celld.status ≠ CellVisibility.Hidden) ∧
  (∀ cellc, getCell g c = some cellc →
    cellc.status = CellVisibility.Hidden →
    NewClosedExcept g0 g2 (fun d => S d ∧ d ≠ c)) ∧
  (HasRevealedMine g2 → HasRevealedMine g)

/-- The reachable-state invariant of C10: the grid is rectangular, the
stored counts are correct, and the state is `Lost` exactly when some mine
is revealed. -/
def BoardInv (g : Game) : Prop :=
  WellFormed g ∧ CorrectCounts g ∧
    (g.state = GameState.Lost ↔ HasRevealedMine g)

/-- Region cells together with their border: the set of cells the claim says
a flood-fill reveal must expose. -/
def RB (g0 : Game) (c0 d : Coordinate) : Prop :=
  RegionCell g0 c0 d ∨ BorderCell g0 c0 d

/-- All visibility changes relative to `g0` lie in the region or border. -/
def DiffIn (g0 g : Game) (c0 : Coordinate) : Prop :=
  ∀ d celld0 celld, getCell g0 d = some celld0 → getCell g d = some celld →
    celld.status ≠ celld0.status → RB g0 c0 d

/-- Admissible arguments of the cascade: out of bounds, not hidden on the
original board, or inside the region or border. -/
def OKTarget (g0 : Game) (c0 c : Coordinate) : Prop :=
  getCell g0 c = none ∨
  (∃ cell0, getCell g0 c = some cell0 ∧
    cell0.status ≠ CellVisibility.Hidden) ∨
  RB g0 c0 c

/-! ### Sanity checks on concrete boards -/

example :
    (Game.reveal ⟨1, 1, [[⟨CellContent.Mine, CellVisibility.Hidden⟩]],
      GameState.Playing⟩ ⟨0, 0⟩).state = GameState.Lost := by decide

example :
    (Game.reveal ⟨1, 1, [[⟨CellContent.Empty 0, CellVisibility.Hidden⟩]],
      GameState.Playing⟩ ⟨0, 0⟩).state = GameState.Won := by decide

example :
    Game.new 1 1 0 (fun _ => ⟨0, 0⟩) 1 =
      some ⟨1, 1, [[⟨CellContent.Mine, CellVisibility.Hidden⟩]],
        GameState.Playing⟩ := by decide

example :
    Game.new 2 1 1 (fun _ => ⟨0, 0⟩) 5 =
      some ⟨2, 1, [[⟨CellContent.Mine, CellVisibility.Hidden⟩,
        ⟨CellContent.Empty 1, CellVisibility.Hidden⟩]],
        GameState.Playing⟩ := by decide

/-! ### Basic lemmas about cell access and update -/

theorem list_set_self {α : Type} {l : List α} {i : Nat} {a : α}
    (h : l[i]? = some a) : l.set i a = l := by
  induction l generalizing i with
  | nil => simp at h
  | cons x xs ih =>
    cases i with
    | zero =>
      simp only [List.getElem?_cons_zero, Option.some.injEq] at h
      simp [h]
    | succ n =>
      simp only [List.getElem?_cons_succ] at h
      simp [List.set, ih h]

theorem setCell_width (g : Game) (c : Coordinate) (a : CellStatus) :
    (setCell g c a).width = g.width := by
  unfold setCell; cases g.field[c.y]? <;> rfl

theorem setCell_height (g : Game) (c : Coordinate) (a : CellStatus) :
    (setCell g c a).height = g.height := by
  unfold setCell; cases g.field[c.y]? <;> rfl

theorem setCell_state (g : Game) (c : Coordinate) (a : CellStatus) :
    (setCell g c a).state = g.state := by
  unfold setCell; cases g.field[c.y]? <;> rfl

theorem getCell_setCell_self {g : Game} {c : Coordinate} {cell : CellStatus}
    (a : CellStatus) (h : getCell g c = some cell) :
    getCell (setCell g c a) c = some a := by
  unfold getCell setCell at *
  cases hy : g.field[c.y]? with
  | none => rw [hy] at h; cases h
  | some row =>
    rw [hy] at h
    simp only [Option.some_bind] at h
    have hylt : c.y < g.field.length := (List.getElem?_eq_some_iff.mp hy).1
    have hxlt : c.x < row.length := (List.getElem?_eq_some_iff.mp h).1
    simp only [hy]
    rw [List.getElem?_set_self (by simpa using hylt)]
    simp only [Option.some_bind]
    exact List.getElem?_set_self (by simpa using hxlt)

theorem getCell_setCell_ne {g : Game} {c d : Coordinate} (a : CellStatus)
    (hne : c.x ≠ d.x ∨ c.y ≠ d.y) :
    getCell (setCell g c a) d = getCell g d := by
  unfold getCell setCell
  cases hy : g.field[c.y]? with
  | none => rfl
  | some row =>
    simp only
    rcases eq_or_ne c.y d.y with heq | hyne
    · have hx : c.x ≠ d.x := by tauto
      rw [← heq]
      have hylt : c.y < g.field.length := (List.getElem?_eq_some_iff.mp hy).1
      rw [List.getElem?_set_self (by simpa using hylt), hy]
      simp only [Option.some_bind]
      exact List.getElem?_set_ne hx
    · rw [List.getElem?_set_ne hyne]

theorem setCell_eq_self {g : Game} {c : Coordinate} {cell : CellStatus}
    (h : getCell g c = some cell) : setCell g c cell = g := by
  unfold getCell at h
  unfold setCell
  split
  · next row hy =>
    rw [hy] at h
    simp only [Option.some_bind] at h
    rw [list_set_self h, list_set_self hy]
  · rfl

theorem getCell_state (g : Game) (s : GameState) (c : Coordinate) :
    getCell { g with state := s } c = getCell g c := rfl

/-! ### Well-formedness and bounds -/

theorem getCell_isSome_of_lt {g : Game} {c : Coordinate} (hw : WellFormed g)
    (hx : c.x < g.width) (hy : c.y < g.height) :
    ∃ cell, getCell g c = some cell := by
  obtain ⟨hlen, hrows⟩ := hw
  have hylt : c.y < g.field.length := by omega
  have hrow : g.field[c.y]? = some g.field[c.y] := List.getElem?_eq_getElem hylt
  have hrl : (g.field[c.y]).length = g.width := hrows _ (List.getElem_mem hylt)
  unfold getCell
  rw [hrow]
  simp only [Option.some_bind]
  exact ⟨_, List.getElem?_eq_getElem (by omega)⟩

theorem lt_of_getCell_some {g : Game} {c : Coordinate} {cell : CellStatus}
    (hw : WellFormed g) (h : getCell g c = some cell) :
    c.x < g.width ∧ c.y < g.height := by
  obtain ⟨hlen, hrows⟩ := hw
  unfold getCell at h
  cases hy : g.field[c.y]? with
  | none => rw [hy] at h; cases h
  | some row =>
    rw [hy] at h
    simp only [Option.some_bind] at h
    have h1 : c.y < g.field.length := (List.getElem?_eq_some_iff.mp hy).1
    have h2 : c.x < row.length := (List.getElem?_eq_some_iff.mp h).1
    have hmem : row ∈ g.field := by
      have := (List.getElem?_eq_some_iff.mp hy).2
      exact this ▸ List.getElem_mem h1
    exact ⟨by rw [← hrows row hmem]; exact h2, by omega⟩

theorem WellFormed_setCell {g : Game} (c : Coordinate) (a : CellStatus)
    (hw : WellFormed g) : WellFormed (setCell g c a) := by
  obtain ⟨hlen, hrows⟩ := hw
  unfold setCell
  cases hy : g.field[c.y]? with
  | none => exact ⟨hlen, hrows⟩
  | some row =>
    constructor
    · simpa using hlen
    · intro r hr
      rcases List.mem_or_eq_of_mem_set hr with hmem | rfl
      · exact hrows r hmem
      · have hmem : row ∈ g.field := by
          have := (List.getElem?_eq_some_iff.mp hy).2
          exact this ▸ List.getElem_mem (List.getElem?_eq_some_iff.mp hy).1
        simpa using hrows row hmem

/-! ### `is_fully_revealed_and_marked` and hidden-cell counting -/

theorem is_fully_iff_noHidden {g : Game} (hw : WellFormed g) :
    is_fully_revealed_and_marked g = true ↔ noHiddenCell g := by
  unfold is_fully_revealed_and_marked noHiddenCell
  simp only [List.all_eq_true, List.mem_range]
  constructor
  · intro h c cell hc
    obtain ⟨hx, hy⟩ := lt_of_getCell_some hw hc
    have hmk : Coordinate.mk c.x c.y = c := rfl
    have := h c.x hx c.y hy
    rw [hmk, hc] at this
    simpa using this
  · intro h x hx y hy
    cases hcell : getCell g ⟨x, y⟩ with
    | none => simp
    | some cell => simp [hcell, h _ _ hcell]

theorem countP_set_eq {α : Type} (p : α → Bool) {l : List α} {i : Nat} {a : α}
    (h : l[i]? = some a) (b : α) :
    (l.set i b).countP p + (if p a = true then 1 else 0)
      = l.countP p + (if p b = true then 1 else 0) := by
  obtain ⟨hlt, hget⟩ := List.getElem?_eq_some_iff.mp h
  subst hget
  rw [List.countP_set p l i b hlt]
  have hle : (if p l[i] = true then 1 else 0) ≤ l.countP p := by
    split
    · exact Nat.one_le_iff_ne_zero.mpr fun hz => by
        have := List.countP_eq_zero.mp hz l[i] (List.getElem_mem hlt)
        simp_all
    · omega
  omega

theorem sum_map_set {α : Type} (f : α → Nat) {l : List α} {i : Nat} {a : α}
    (h : l[i]? = some a) (b : α) :
    ((l.set i b).map f).sum + f a = (l.map f).sum + f b := by
  induction l generalizing i with
  | nil => simp at h
  | cons x xs ih =>
    cases i with
    | zero =>
      simp only [List.getElem?_cons_zero, Option.some.injEq] at h
      subst h
      simp only [List.set, List.map_cons, List.sum_cons]
      omega
    | succ n =>
      simp only [List.getElem?_cons_succ] at h
      simp only [List.set, List.map_cons, List.sum_cons]
      have := ih h
      omega

theorem hiddenCount_setCell {g : Game} {c : Coordinate} {cell : CellStatus}
    (b : CellStatus) (h : getCell g c = some cell) :
    hiddenCount (setCell g c b)
        + (if cell.status = CellVisibility.Hidden then 1 else 0)
      = hiddenCount g + (if b.status = CellVisibility.Hidden then 1 else 0) := by
  unfold getCell at h
  unfold setCell hiddenCount
  cases hy : g.field[c.y]? with
  | none => rw [hy] at h; cases h
  | some row =>
    rw [hy] at h
    simp only [Option.some_bind] at h
    simp only [hy]
    have h1 := sum_map_set
      (List.countP fun cl => decide (cl.status = CellVisibility.Hidden)) hy
      (row.set c.x b)
    have h2 := countP_set_eq
      (fun cl => decide (cl.status = CellVisibility.Hidden)) h b
    by_cases hcl : cell.status = CellVisibility.Hidden <;>
      by_cases hb : b.status = CellVisibility.Hidden <;>
      simp only [hcl, hb, decide_eq_true_eq] at h2 ⊢ <;> simp_all <;> omega

theorem hiddenCount_zero_iff {g : Game} :
    hiddenCount g = 0 ↔ noHiddenCell g := by
  unfold hiddenCount noHiddenCell
  rw [List.sum_eq_zero_iff]
  constructor
  · intro h c cell hc
    unfold getCell at hc
    cases hy : g.field[c.y]? with
    | none => rw [hy] at hc; cases hc
    | some row =>
      rw [hy] at hc
      simp only [Option.some_bind] at hc
      have hrmem : row ∈ g.field := by
        have := (List.getElem?_eq_some_iff.mp hy).2
        exact this ▸ List.getElem_mem (List.getElem?_eq_some_iff.mp hy).1
      have hcmem : cell ∈ row := by
        have := (List.getElem?_eq_some_iff.mp hc).2
        exact this ▸ List.getElem_mem (List.getElem?_eq_some_iff.mp hc).1
      have hz := h _ (List.mem_map.mpr ⟨row, hrmem, rfl⟩)
      have := List.countP_eq_zero.mp hz cell hcmem
      simpa using this
  · intro h n hn
    rw [List.mem_map] at hn
    obtain ⟨row, hrow, rfl⟩ := hn
    rw [List.countP_eq_zero]
    intro cell hcell
    obtain ⟨i, hi⟩ := List.mem_iff_getElem?.mp hrow
    obtain ⟨j, hj⟩ := List.mem_iff_getElem?.mp hcell
    have hget : getCell g ⟨j, i⟩ = some cell := by
      unfold getCell
      simp only [hi, Option.some_bind, hj]
    simpa using h _ _ hget

/-! ### Evolution machinery -/

theorem forall2_self {α : Type} {r : α → α → Prop} (hrefl : ∀ a, r a a)
    (l : List α) : List.Forall₂ r l l := by
  induction l with
  | nil => exact List.Forall₂.nil
  | cons x xs ih => exact List.Forall₂.cons (hrefl x) ih

theorem forall2_trans {α : Type} {r : α → α → Prop}
    (htrans : ∀ a b c, r a b → r b c → r a c) :
    ∀ {l1 l2 l3 : List α}, List.Forall₂ r l1 l2 → List.Forall₂ r l2 l3 →
      List.Forall₂ r l1 l3 := by
  intro l1 l2 l3 h12 h23
  induction h12 generalizing l3 with
  | nil => cases h23; exact List.Forall₂.nil
  | cons hab h12' ih =>
    cases h23 with
    | cons hbc h23' => exact List.Forall₂.cons (htrans _ _ _ hab hbc) (ih h23')

theorem forall2_get_some {α β : Type} {r : α → β → Prop} {l : List α}
    {l' : List β} (h : List.Forall₂ r l l') :
    ∀ {i : Nat} {a : α}, l[i]? = some a → ∃ b, l'[i]? = some b ∧ r a b := by
  induction h with
  | nil => intro i a ha; simp at ha
  | cons hab h ih =>
    intro i a ha
    cases i with
    | zero =>
      simp only [List.getElem?_cons_zero, Option.some.injEq] at ha
      exact ⟨_, by simp, ha ▸ hab⟩
    | succ n =>
      simp only [List.getElem?_cons_succ] at ha ⊢
      exact ih ha

theorem forall2_get_none {α β : Type} {r : α → β → Prop} {l : List α}
    {l' : List β} (h : List.Forall₂ r l l') (i : Nat) :
    l[i]? = none ↔ l'[i]? = none := by
  rw [List.getElem?_eq_none_iff, List.getElem?_eq_none_iff, h.length_eq]

theorem forall2_set {α : Type} {r : α → α → Prop} (hrefl : ∀ a, r a a)
    (l : List α) (i : Nat) (b : α) (hi : ∀ h : i < l.length, r l[i] b) :
    List.Forall₂ r l (l.set i b) := by
  rw [List.forall₂_iff_get]
  refine ⟨by simp, ?_⟩
  intro j h1 h2
  simp only [List.get_eq_getElem]
  rw [List.getElem_set]
  split
  · next heq => exact heq ▸ hi (heq ▸ h1)
  · exact hrefl _

theorem cellEvolves_refl (a : CellStatus) : cellEvolves a a := ⟨rfl, Or.inl rfl⟩

theorem cellEvolves_trans {a b c : CellStatus} (h1 : cellEvolves a b)
    (h2 : cellEvolves b c) : cellEvolves a c := by
  obtain ⟨hc1, hs1⟩ := h1
  obtain ⟨hc2, hs2⟩ := h2
  refine ⟨hc2.trans hc1, ?_⟩
  rcases hs1 with h | ⟨ha, hb⟩ <;> rcases hs2 with h' | ⟨hb', hc'⟩ <;>
    simp_all

theorem evolves_refl (g : Game) : evolves g g :=
  ⟨rfl, rfl, forall2_self (forall2_self cellEvolves_refl) _⟩

theorem cellEvolvesT (a b c : CellStatus) (h1 : cellEvolves a b)
    (h2 : cellEvolves b c) : cellEvolves a c := cellEvolves_trans h1 h2

theorem rowEvolvesT (r1 r2 r3 : List CellStatus)
    (h1 : List.Forall₂ cellEvolves r1 r2)
    (h2 : List.Forall₂ cellEvolves r2 r3) :
    List.Forall₂ cellEvolves r1 r3 := forall2_trans cellEvolvesT h1 h2

theorem evolves_trans {g1 g2 g3 : Game} (h1 : evolves g1 g2)
    (h2 : evolves g2 g3) : evolves g1 g3 := by
  obtain ⟨hw1, hh1, hf1⟩ := h1
  obtain ⟨hw2, hh2, hf2⟩ := h2
  exact ⟨hw2.trans hw1, hh2.trans hh1, forall2_trans rowEvolvesT hf1 hf2⟩

theorem evolves_getCell_some {g g' : Game} {c : Coordinate}
    {cell : CellStatus} (h : evolves g g') (hc : getCell g c = some cell) :
    ∃ cell', getCell g' c = some cell' ∧ cellEvolves cell cell' := by
  obtain ⟨_, _, hf⟩ := h
  unfold getCell at hc ⊢
  cases hy : g.field[c.y]? with
  | none => rw [hy] at hc; cases hc
  | some row =>
    rw [hy] at hc
    simp only [Option.some_bind] at hc
    obtain ⟨row', hy', hrow⟩ := forall2_get_some hf hy
    obtain ⟨cell', hx', hcell⟩ := forall2_get_some hrow hc
    refine ⟨cell', ?_, hcell⟩
    rw [hy']
    simpa using hx'

theorem evolves_getCell_none {g g' : Game} {c : Coordinate}
    (h : evolves g g') : getCell g c = none ↔ getCell g' c = none := by
  obtain ⟨_, _, hf⟩ := h
  unfold getCell
  cases hy : g.field[c.y]? with
  | none =>
    rw [(forall2_get_none hf c.y).mp hy]
  | some row =>
    obtain ⟨row', hy', hrow⟩ := forall2_get_some hf hy
    rw [hy']
    simp only [Option.some_bind]
    rw [List.getElem?_eq_none_iff, List.getElem?_eq_none_iff, hrow.length_eq]

theorem evolves_set_state {g g' : Game} (s : GameState) (h : evolves g g') :
    evolves g { g' with state := s } := h

theorem evolves_setCell_reveal {g : Game} {c : Coordinate} {cell : CellStatus}
    (hc : getCell g c = some cell) (hh : cell.status = CellVisibility.Hidden) :
    evolves g (setCell g c { cell with status := CellVisibility.Revealed }) := by
  unfold getCell at hc
  unfold setCell
  cases hy : g.field[c.y]? with
  | none => exact evolves_refl g
  | some row =>
    rw [hy] at hc
    simp only [Option.some_bind] at hc
    refine ⟨rfl, rfl, ?_⟩
    simp only
    apply forall2_set (forall2_self cellEvolves_refl)
    intro hlen
    have : g.field[c.y] = row := by
      have := (List.getElem?_eq_some_iff.mp hy).2
      exact this
    rw [this]
    apply forall2_set cellEvolves_refl
    intro hlen'
    have hcx : row[c.x] = cell := (List.getElem?_eq_some_iff.mp hc).2
    rw [hcx]
    exact ⟨rfl, Or.inr ⟨hh, rfl⟩⟩

theorem countP_hidden_le_of_forall2 {r r' : List CellStatus}
    (hrr : List.Forall₂ cellEvolves r r') :
    List.countP (fun cl => decide (cl.status = CellVisibility.Hidden)) r'
      ≤ List.countP (fun cl => decide (cl.status = CellVisibility.Hidden)) r := by
  induction hrr with
  | nil => simp
  | cons hab hcd ihr =>
    simp only [List.countP_cons]
    obtain ⟨_, hst⟩ := hab
    rcases hst with heq | ⟨h1, h2⟩
    · simp only [heq]; omega
    · simp [h1, h2]
      omega

theorem sum_hidden_le_of_forall2 {F F' : List (List CellStatus)}
    (hf : List.Forall₂ (List.Forall₂ cellEvolves) F F') :
    (F'.map (List.countP fun cl =>
        decide (cl.status = CellVisibility.Hidden))).sum
      ≤ (F.map (List.countP fun cl =>
        decide (cl.status = CellVisibility.Hidden))).sum := by
  induction hf with
  | nil => simp
  | cons hrow hrest ih =>
    simp only [List.map_cons, List.sum_cons]
    exact Nat.add_le_add (countP_hidden_le_of_forall2 hrow) ih

theorem hiddenCount_le_of_evolves {g g' : Game} (h : evolves g g') :
    hiddenCount g' ≤ hiddenCount g := by
  obtain ⟨_, _, hf⟩ := h
  unfold hiddenCount
  exact sum_hidden_le_of_forall2 hf

theorem forall2_get_back {α β : Type} {r : α → β → Prop} {l : List α}
    {l' : List β} (h : List.Forall₂ r l l') {i : Nat} {b : β}
    (hb : l'[i]? = some b) : ∃ a, l[i]? = some a ∧ r a b := by
  cases ha : l[i]? with
  | none =>
    rw [(forall2_get_none h i).mp ha] at hb
    cases hb
  | some a =>
    obtain ⟨b', hb', hr⟩ := forall2_get_some h ha
    rw [hb'] at hb
    cases hb
    exact ⟨a, rfl, hr⟩

theorem evolves_getCell_back {g g' : Game} {c : Coordinate}
    {cell' : CellStatus} (h : evolves g g') (hc : getCell g' c = some cell') :
    ∃ cell, getCell g c = some cell ∧ cellEvolves cell cell' := by
  cases hg : getCell g c with
  | none => rw [(evolves_getCell_none h).mp hg] at hc; cases hc
  | some cell =>
    obtain ⟨cell'', hc'', hev⟩ := evolves_getCell_some h hg
    rw [hc''] at hc
    cases hc
    exact ⟨cell, rfl, hev⟩

theorem WellFormed_evolves {g g' : Game} (h : evolves g g')
    (hw : WellFormed g) : WellFormed g' := by
  obtain ⟨hww, hhh, hf⟩ := h
  obtain ⟨hlen, hrows⟩ := hw
  constructor
  · rw [← hf.length_eq, hlen, hhh]
  · intro row' hrow'
    obtain ⟨i, hi⟩ := List.mem_iff_getElem?.mp hrow'
    obtain ⟨row, hrg, hrel⟩ := forall2_get_back hf hi
    rw [hww, ← hrel.length_eq]
    exact hrows row (by
      have := (List.getElem?_eq_some_iff.mp hrg).2
      exact this ▸ List.getElem_mem (List.getElem?_eq_some_iff.mp hrg).1)

theorem noHiddenCell_evolves {g g' : Game} (h : evolves g g')
    (hn : noHiddenCell g) : noHiddenCell g' := by
  intro c cell' hc hst
  obtain ⟨cell, hcg, hev⟩ := evolves_getCell_back h hc
  obtain ⟨_, hs⟩ := hev
  rcases hs with heq | ⟨h1, h2⟩
  · exact hn c cell hcg (heq ▸ hst)
  · rw [h2] at hst; cases hst

theorem hidden_back_of_evolves {g g' : Game} {c : Coordinate}
    {cell' : CellStatus} (h : evolves g g') (hc : getCell g' c = some cell')
    (hst : cell'.status = CellVisibility.Hidden) :
    ∃ cell, getCell g c = some cell ∧ cell.status = CellVisibility.Hidden ∧
      cell.content = cell'.content := by
  obtain ⟨cell, hcg, hev⟩ := evolves_getCell_back h hc
  obtain ⟨hcon, hs⟩ := hev
  rcases hs with heq | ⟨h1, h2⟩
  · exact ⟨cell, hcg, heq ▸ hst, hcon.symm⟩
  · rw [h2] at hst; cases hst

theorem nonHidden_stable_of_evolves {g g' : Game} {c : Coordinate}
    {cell : CellStatus} (h : evolves g g') (hc : getCell g c = some cell)
    (hst : cell.status ≠ CellVisibility.Hidden) :
    getCell g' c = some cell := by
  obtain ⟨cell', hc', hev⟩ := evolves_getCell_some h hc
  obtain ⟨hcon, hs⟩ := hev
  rcases hs with heq | ⟨h1, h2⟩
  · have : cell' = cell := by
      cases cell; cases cell'
      simp_all
    rw [hc', this]
  · exact absurd h1 hst

/-! ### Neighbour lemmas -/

theorem get_neighbours_congr {g g' : Game} (hw : g'.width = g.width)
    (hh : g'.height = g.height) (c : Coordinate) :
    g'.get_neighbours c = g.get_neighbours c := by
  unfold Game.get_neighbours
  rw [hw, hh]

theorem mem_get_neighbours (g : Game) (c d : Coordinate) :
    d ∈ g.get_neighbours c ↔
      d.x < g.width ∧ d.y < g.height ∧ near c.x d.x ∧ near c.y d.y := by
  simp only [Game.get_neighbours, offsetRange, List.mem_map, List.mem_filter,
    List.mem_flatMap, List.mem_cons, List.not_mem_nil, or_false]
  constructor
  · rintro ⟨⟨a, b⟩, ⟨⟨dx, hdx, dy, hdy, heq⟩, hb⟩, rfl⟩
    simp only [Prod.mk.injEq] at heq
    simp only [Bool.and_eq_true, decide_eq_true_eq] at hb
    obtain ⟨rfl, rfl⟩ := heq
    simp only [near]
    rcases hdx with rfl | rfl | rfl <;> rcases hdy with rfl | rfl | rfl <;>
      refine ⟨by omega, by omega, by omega, by omega⟩
  · rintro ⟨h1, h2, ⟨h3, h4⟩, ⟨h5, h6⟩⟩
    refine ⟨((d.x : Int), (d.y : Int)),
      ⟨⟨(d.x : Int) - c.x, ?_, (d.y : Int) - c.y, ?_, ?_⟩, ?_⟩, ?_⟩
    · omega
    · omega
    · simp only [Prod.mk.injEq]
      constructor <;> omega
    · simp only [Bool.and_eq_true, decide_eq_true_eq]
      refine ⟨⟨⟨?_, ?_⟩, ?_⟩, ?_⟩ <;> omega
    · cases d
      simp only [Coordinate.mk.injEq]
      constructor <;> omega

theorem mem_get_neighbours_of_adjacent {g : Game} {c d : Coordinate}
    (h : Adjacent g.width g.height c d) : d ∈ g.get_neighbours c := by
  obtain ⟨_, hx, hy, hnx, hny⟩ := h
  exact (mem_get_neighbours g c d).mpr ⟨hx, hy, hnx, hny⟩

/-! ### Content-only congruence: `sameBoard` -/

theorem sameBoard_refl (g : Game) : sameBoard g g := ⟨rfl, rfl, fun _ => rfl⟩

theorem sameBoard_trans {g1 g2 g3 : Game} (h1 : sameBoard g1 g2)
    (h2 : sameBoard g2 g3) : sameBoard g1 g3 :=
  ⟨h2.1.trans h1.1, h2.2.1.trans h1.2.1, fun d => (h2.2.2 d).trans (h1.2.2 d)⟩

theorem sameBoard_of_evolves {g g' : Game} (h : evolves g g') :
    sameBoard g g' := by
  refine ⟨h.1, h.2.1, fun d => ?_⟩
  cases hd : getCell g d with
  | none => rw [(evolves_getCell_none h).mp hd]
  | some cell =>
    obtain ⟨cell', hc', hev⟩ := evolves_getCell_some h hd
    rw [hc']
    simp [hev.1]

theorem sameBoard_setCell {g : Game} {c : Coordinate} {cell b : CellStatus}
    (hc : getCell g c = some cell) (hcon : b.content = cell.content) :
    sameBoard g (setCell g c b) := by
  refine ⟨setCell_width g c b, setCell_height g c b, fun d => ?_⟩
  by_cases hd : c.x = d.x ∧ c.y = d.y
  · have : c = d := by cases c; cases d; simp_all
    subst this
    rw [getCell_setCell_self b hc, hc]
    simp [hcon]
  · rw [getCell_setCell_ne b (by tauto)]

theorem mine_count_at_congr {g g' : Game} (h : sameBoard g g')
    (c : Coordinate) : mine_count_at g' c = mine_count_at g c := by
  unfold mine_count_at
  rw [get_neighbours_congr h.1 h.2.1]
  apply List.countP_congr
  intro d hd
  have hcon := h.2.2 d
  cases hg : getCell g d with
  | none =>
    rw [hg] at hcon
    cases hg' : getCell g' d with
    | none => simp only [hg, hg']
    | some cell' => rw [hg'] at hcon; simp at hcon
  | some cell =>
    rw [hg] at hcon
    cases hg' : getCell g' d with
    | none => rw [hg'] at hcon; simp at hcon
    | some cell' =>
      rw [hg'] at hcon
      simp only [Option.map] at hcon
      rw [Option.some.injEq] at hcon
      simp only [hg, hg', hcon]

theorem CorrectCounts_sameBoard {g g' : Game} (h : sameBoard g g')
    (hc : CorrectCounts g) : CorrectCounts g' := by
  intro c cell' n hcell' hcon'
  have hcc := h.2.2 c
  rw [hcell'] at hcc
  cases hg : getCell g c with
  | none => rw [hg] at hcc; simp at hcc
  | some cell =>
    rw [hg] at hcc
    simp only [Option.map] at hcc
    rw [Option.some.injEq] at hcc
    rw [mine_count_at_congr h c]
    exact hc c cell n hg (by rw [← hcc, hcon'])

theorem CorrectCounts_evolves {g g' : Game} (h : evolves g g')
    (hc : CorrectCounts g) : CorrectCounts g' :=
  CorrectCounts_sameBoard (sameBoard_of_evolves h) hc

theorem no_mine_neighbour {g : Game} {c : Coordinate} {cell : CellStatus}
    (hcc : CorrectCounts g) (hc : getCell g c = some cell)
    (h0 : cell.content = CellContent.Empty 0) :
    ∀ d ∈ g.get_neighbours c, ∀ celld, getCell g d = some celld →
      celld.content ≠ CellContent.Mine := by
  intro d hd celld hcd hmine
  have hz := hcc c cell 0 hc h0
  unfold mine_count_at at hz
  have := List.countP_eq_zero.mp hz.symm d hd
  rw [hcd] at this
  simp [hmine] at this

/-! ### Unfolding lemmas for `reveal_fuel` and `toggle_flag_checked` -/

theorem reveal_fuel_not_playing {g : Game} (c : Coordinate) (fuel : Nat)
    (h : ¬ g.state = GameState.Playing) : reveal_fuel fuel g c = g := by
  cases fuel with
  | zero => rfl
  | succ n =>
    unfold reveal_fuel
    simp [GameState.is_playing, h]

theorem reveal_fuel_oob {g : Game} {c : Coordinate} (fuel : Nat)
    (h : getCell g c = none) : reveal_fuel fuel g c = g := by
  cases fuel with
  | zero => rfl
  | succ n =>
    unfold reveal_fuel
    simp [h]

theorem reveal_fuel_nonHidden {g : Game} {c : Coordinate} {cell : CellStatus}
    (fuel : Nat) (hc : getCell g c = some cell)
    (hs : ¬ cell.status = CellVisibility.Hidden) : reveal_fuel fuel g c = g := by
  cases fuel with
  | zero => rfl
  | succ n =>
    unfold reveal_fuel
    simp [hc, hs]

theorem reveal_fuel_succ_eq {g : Game} {c : Coordinate} {cell : CellStatus}
    (fuel : Nat) (hp : g.state = GameState.Playing)
    (hc : getCell g c = some cell) (hh : cell.status = CellVisibility.Hidden) :
    reveal_fuel (fuel + 1) g c =
      (fun g2 : Game =>
        if cell.content = CellContent.Mine then { g2 with state := GameState.Lost }
        else if is_fully_revealed_and_marked g2 then { g2 with state := GameState.Won }
        else g2)
      (if cell.content = CellContent.Empty 0 then
        ((setCell g c { cell with status := CellVisibility.Revealed }).get_neighbours
            c).foldl (fun h n => reveal_fuel fuel h n)
          (setCell g c { cell with status := CellVisibility.Revealed })
      else setCell g c { cell with status := CellVisibility.Revealed }) := by
  conv_lhs => unfold reveal_fuel
  simp only [GameState.is_playing, hp, decide_True, if_true, hc, hh, if_pos rfl]

theorem toggle_not_playing {g : Game} (c : Coordinate)
    (h : ¬ g.state = GameState.Playing) : toggle_flag_checked g c = g := by
  unfold toggle_flag_checked
  simp [GameState.is_playing, h]

theorem toggle_oob {g : Game} {c : Coordinate} (h : getCell g c = none) :
    toggle_flag_checked g c = g := by
  unfold toggle_flag_checked
  simp [h]

theorem toggle_eq {g : Game} {c : Coordinate} {cell : CellStatus}
    (hp : g.state = GameState.Playing) (hc : getCell g c = some cell) :
    toggle_flag_checked g c =
      (fun g1 : Game =>
        if cell.content = CellContent.Mine ∧ is_fully_revealed_and_marked g1 then
          { g1 with state := GameState.Won }
        else g1)
      (setCell g c { cell with status :=
        if cell.status = CellVisibility.Hidden then CellVisibility.Flagged
        else if cell.status = CellVisibility.Flagged then CellVisibility.Hidden
        else cell.status }) := by
  unfold toggle_flag_checked
  simp only [GameState.is_playing, hp, decide_True, if_true, hc]
theorem reveal_fuel_succ_mine {g : Game} {c : Coordinate} {cell : CellStatus}
    (fuel : Nat) (hp : g.state = GameState.Playing)
    (hc : getCell g c = some cell) (hh : cell.status = CellVisibility.Hidden)
    (hm : cell.content = CellContent.Mine) :
    reveal_fuel (fuel + 1) g c =
      { setCell g c { cell with status := CellVisibility.Revealed } with
        state := GameState.Lost } := by
  rw [reveal_fuel_succ_eq fuel hp hc hh]
  simp [hm]

theorem reveal_fuel_succ_nonzero {g : Game} {c : Coordinate} {cell : CellStatus}
    {k : Nat} (fuel : Nat) (hp : g.state = GameState.Playing)
    (hc : getCell g c = some cell) (hh : cell.status = CellVisibility.Hidden)
    (hm : cell.content = CellContent.Empty k) (hk : k ≠ 0) :
    reveal_fuel (fuel + 1) g c =
      (if is_fully_revealed_and_marked
          (setCell g c { cell with status := CellVisibility.Revealed }) then
        { setCell g c { cell with status := CellVisibility.Revealed } with
          state := GameState.Won }
      else setCell g c { cell with status := CellVisibility.Revealed }) := by
  rw [reveal_fuel_succ_eq fuel hp hc hh]
  simp [hm, hk]

theorem reveal_fuel_succ_zero {g : Game} {c : Coordinate} {cell : CellStatus}
    (fuel : Nat) (hp : g.state = GameState.Playing)
    (hc : getCell g c = some cell) (hh : cell.status = CellVisibility.Hidden)
    (hm : cell.content = CellContent.Empty 0) :
    reveal_fuel (fuel + 1) g c =
      (fun g2 : Game =>
        if is_fully_revealed_and_marked g2 then { g2 with state := GameState.Won }
        else g2)
      (((setCell g c { cell with status := CellVisibility.Revealed }).get_neighbours
          c).foldl (fun h n => reveal_fuel fuel h n)
        (setCell g c { cell with status := CellVisibility.Revealed })) := by
  rw [reveal_fuel_succ_eq fuel hp hc hh]
  simp [hm]



/-! ### More helpers: membership, double update, cell counts -/

theorem cell_mem_of_getCell {g : Game} {c : Coordinate} {cell : CellStatus}
    (h : getCell g c = some cell) : ∃ row, row ∈ g.field ∧ cell ∈ row := by
  unfold getCell at h
  cases hy : g.field[c.y]? with
  | none => rw [hy] at h; cases h
  | some row =>
    rw [hy] at h
    simp only [Option.some_bind] at h
    refine ⟨row, ?_, ?_⟩
    · have := (List.getElem?_eq_some_iff.mp hy).2
      exact this ▸ List.getElem_mem (List.getElem?_eq_some_iff.mp hy).1
    · have := (List.getElem?_eq_some_iff.mp h).2
      exact this ▸ List.getElem_mem (List.getElem?_eq_some_iff.mp h).1

theorem sum_countP_pos (p : CellStatus → Bool) {g : Game} {c : Coordinate}
    {cell : CellStatus} (h : getCell g c = some cell) (hp : p cell = true) :
    1 ≤ (g.field.map (List.countP p)).sum := by
  obtain ⟨row, hrow, hcell⟩ := cell_mem_of_getCell h
  have h1 : 0 < List.countP p row := List.countP_pos_iff.mpr ⟨cell, hcell, hp⟩
  have h2 : List.countP p row ≤ (g.field.map (List.countP p)).sum :=
    List.single_le_sum (fun x _ => Nat.zero_le x) _
      (List.mem_map.mpr ⟨row, hrow, rfl⟩)
  omega

theorem setCell_setCell (g : Game) (c : Coordinate) (a b : CellStatus) :
    setCell (setCell g c a) c b = setCell g c b := by
  unfold setCell
  cases hy : g.field[c.y]? with
  | none => simp only [hy]
  | some row =>
    have hylt : c.y < g.field.length := (List.getElem?_eq_some_iff.mp hy).1
    simp only [hy]
    rw [List.getElem?_set_self (by simpa using hylt)]
    simp only [List.set_set]

theorem empty_total_setCell {g : Game} {c : Coordinate} {cell : CellStatus}
    (b : CellStatus) (h : getCell g c = some cell) :
    empty_total (setCell g c b)
        + (if cell.content ≠ CellContent.Mine then 1 else 0)
      = empty_total g + (if b.content ≠ CellContent.Mine then 1 else 0) := by
  unfold getCell at h
  unfold setCell empty_total
  cases hy : g.field[c.y]? with
  | none => rw [hy] at h; cases h
  | some row =>
    rw [hy] at h
    simp only [Option.some_bind] at h
    simp only [hy]
    have h1 := sum_map_set
      (List.countP fun cl => decide (cl.content ≠ CellContent.Mine)) hy
      (row.set c.x b)
    have h2 := countP_set_eq
      (fun cl => decide (cl.content ≠ CellContent.Mine)) h b
    by_cases hcl : cell.content = CellContent.Mine <;>
      by_cases hb : b.content = CellContent.Mine <;>
      simp only [hcl, hb, decide_eq_true_eq] at h2 ⊢ <;> simp_all <;> omega

theorem empty_total_initGame (w h : Nat) :
    empty_total (initGame w h) = h * w := by
  unfold empty_total initGame CellStatus.new
  simp only [List.map_replicate, List.countP_replicate, List.sum_replicate,
    smul_eq_mul]
  simp

theorem place_loop_some_bound {picks : Nat → Coordinate} {mines : Nat} :
    ∀ {fuel i placed : Nat} {g g' : Game},
      place_loop picks mines fuel i placed g = some g' →
      mines ≤ placed + empty_total g := by
  intro fuel
  induction fuel with
  | zero => intro i placed g g' h; cases h
  | succ n ih =>
    intro i placed g g' h
    unfold place_loop at h
    cases hcell : getCell g (picks i) with
    | none =>
      simp only [hcell] at h
      split at h
      · next hge => omega
      · next hge => have := ih h; omega
    | some cell =>
      cases hcon : cell.content with
      | Mine =>
        simp only [hcell, hcon] at h
        split at h
        · next hge => omega
        · next hge => have := ih h; omega
      | Empty k =>
        simp only [hcell, hcon] at h
        have hpos : 1 ≤ empty_total g :=
          sum_countP_pos _ hcell (by simp [hcon])
        have hdec := empty_total_setCell
          (⟨CellContent.Mine, CellVisibility.Hidden⟩ : CellStatus) hcell
        rw [hcon] at hdec
        simp only [decide_eq_true_eq] at hdec
        split at h
        · next hge => omega
        · next hge =>
          have := ih h
          simp at hdec
          omega


/-! ### Claim theorems -/

/-- C1 (code bug): with `mineCount = 0` the placement loop of `Game::new`
still runs its body once before checking the break condition, so a 1×1 board
requested with zero mines comes back with one mine (the single cell is
`Mine`), where the claim requires exactly zero mines and an `Empty(0)` cell. -/
theorem claim_C1_mine_zero_bug :
    Game.new 1 1 0 (fun _ => ⟨0, 0⟩) 1 =
      some ⟨1, 1, [[⟨CellContent.Mine, CellVisibility.Hidden⟩]],
        GameState.Playing⟩ ∧
    mines_total (⟨1, 1, [[⟨CellContent.Mine, CellVisibility.Hidden⟩]],
      GameState.Playing⟩ : Game) = 1 := by
  constructor
  · decide
  · decide

/-- C2 (code bug): `Game::new` never checks `mineCount < width*height`; when
`mineCount` exceeds the number of cells the rejection-sampling loop can never
place enough mines, so it never terminates: for every pick stream and every
iteration bound the embedded loop fails to produce a board, instead of
failing with an `InvalidConfiguration` error (no such error exists in the
source). -/
theorem claim_C2_never_terminates (width height mines : Nat)
    (picks : Nat → Coordinate) (fuel : Nat) (h : width * height < mines) :
    Game.new width height mines picks fuel = none := by
  unfold Game.new
  cases hpl : place_loop picks mines fuel 0 0 (initGame width height) with
  | none => rfl
  | some g' =>
    have hb := place_loop_some_bound hpl
    rw [empty_total_initGame] at hb
    have : height * width = width * height := Nat.mul_comm height width
    omega

theorem claim_C2_witness :
    Game.new 1 1 2 (fun _ => ⟨0, 0⟩) 5 = none :=
  claim_C2_never_terminates 1 1 2 (fun _ => ⟨0, 0⟩) 5 (by decide)

/-- C5 counterexample: `get_neighbours` never excludes the center, so on a
3×3 board the neighbour list of the middle cell contains the middle cell
itself and has 9 entries, not at most 8. -/
theorem claim_C5_counterexample :
    Coordinate.mk 1 1 ∈ (initGame 3 3).get_neighbours ⟨1, 1⟩ ∧
    ((initGame 3 3).get_neighbours ⟨1, 1⟩).length = 9 := by
  constructor
  · decide
  · decide

/-- C5 (amended): for an in-bounds coordinate `c`, `get_neighbours` yields
exactly the in-bounds coordinates of the 3×3 block centered on `c`
*including* `c` itself (hence at most 9 of them), and the resulting list is
a deterministic function of `c` and the board dimensions. -/
theorem claim_C5_amended (g : Game) (c : Coordinate)
    (hx : c.x < g.width) (hy : c.y < g.height) :
    (∀ d, d ∈ g.get_neighbours c ↔
      (d.x < g.width ∧ d.y < g.height ∧ near c.x d.x ∧ near c.y d.y)) ∧
    c ∈ g.get_neighbours c ∧
    (g.get_neighbours c).length ≤ 9 ∧
    (∀ g' : Game, g'.width = g.width → g'.height = g.height →
      g'.get_neighbours c = g.get_neighbours c) := by
  refine ⟨fun d => mem_get_neighbours g c d, ?_, ?_, ?_⟩
  · exact (mem_get_neighbours g c c).mpr
      ⟨hx, hy, ⟨by omega, by omega⟩, ⟨by omega, by omega⟩⟩
  · unfold Game.get_neighbours
    rw [List.length_map]
    refine le_trans (List.length_filter_le _ _) ?_
    simp [offsetRange]
  · intro g' hw hh
    exact get_neighbours_congr hw hh c

theorem claim_C5_amended_witness :
    (0 : Nat) < (initGame 3 3).width ∧
    Coordinate.mk 1 1 ∈ (initGame 3 3).get_neighbours ⟨1, 1⟩ := by
  refine ⟨by decide, ?_⟩
  exact (claim_C5_amended (initGame 3 3) ⟨1, 1⟩ (by decide) (by decide)).2.1

/-- C6: on a `Playing` board, revealing an in-bounds `Hidden` cell whose
content is `Mine` marks that cell `Revealed` and moves the state to `Lost`. -/
theorem claim_C6_reveal_mine_loses (g : Game) (c : Coordinate)
    (cell : CellStatus) (hp : g.state = GameState.Playing)
    (hc : getCell g c = some cell) (hm : cell.content = CellContent.Mine)
    (hh : cell.status = CellVisibility.Hidden) :
    (g.reveal c).state = GameState.Lost ∧
      getCell (g.reveal c) c =
        some { cell with status := CellVisibility.Revealed } := by
  unfold Game.reveal
  rw [reveal_fuel_succ_mine _ hp hc hh hm]
  exact ⟨rfl, getCell_setCell_self _ hc⟩

theorem claim_C6_witness :
    (Game.reveal ⟨1, 1, [[⟨CellContent.Mine, CellVisibility.Hidden⟩]],
        GameState.Playing⟩ ⟨0, 0⟩).state = GameState.Lost :=
  (claim_C6_reveal_mine_loses _ ⟨0, 0⟩
    ⟨CellContent.Mine, CellVisibility.Hidden⟩ rfl (by decide) rfl rfl).1

/-- C7: `Won` and `Lost` are absorbing: when the state is not `Playing`,
both `reveal_field_checked` and `toggle_flag_checked` return the game
unchanged (same cells, same state). -/
theorem claim_C7_terminal_absorbing (g : Game) (c : Coordinate)
    (h : g.state ≠ GameState.Playing) :
    g.reveal c = g ∧ toggle_flag_checked g c = g :=
  ⟨reveal_fuel_not_playing c _ h, toggle_not_playing c h⟩

theorem claim_C7_witness :
    Game.reveal ⟨1, 1, [[⟨CellContent.Empty 0, CellVisibility.Hidden⟩]],
        GameState.Won⟩ ⟨0, 0⟩ =
      ⟨1, 1, [[⟨CellContent.Empty 0, CellVisibility.Hidden⟩]],
        GameState.Won⟩ ∧
    toggle_flag_checked ⟨1, 1, [[⟨CellContent.Empty 0, CellVisibility.Hidden⟩]],
        GameState.Won⟩ ⟨0, 0⟩ =
      ⟨1, 1, [[⟨CellContent.Empty 0, CellVisibility.Hidden⟩]],
        GameState.Won⟩ :=
  claim_C7_terminal_absorbing _ ⟨0, 0⟩ (by decide)

/-- C9: an out-of-bounds coordinate makes both `reveal_field_checked` and
`toggle_flag_checked` total no-ops on a well-formed board: the game value is
returned unchanged (no panic is possible in the embedding; the source guards
every access through `Option`). -/
theorem claim_C9_oob_noop (g : Game) (c : Coordinate) (hw : WellFormed g)
    (hoob : g.width ≤ c.x ∨ g.height ≤ c.y) :
    g.reveal c = g ∧ toggle_flag_checked g c = g := by
  have hnone : getCell g c = none := by
    cases hg : getCell g c with
    | none => rfl
    | some cell =>
      obtain ⟨hx, hy⟩ := lt_of_getCell_some hw hg
      omega
  exact ⟨reveal_fuel_oob _ hnone, toggle_oob hnone⟩

theorem claim_C9_witness :
    Game.reveal ⟨1, 1, [[⟨CellContent.Empty 0, CellVisibility.Hidden⟩]],
        GameState.Playing⟩ ⟨5, 7⟩ =
      ⟨1, 1, [[⟨CellContent.Empty 0, CellVisibility.Hidden⟩]],
        GameState.Playing⟩ ∧
    toggle_flag_checked ⟨1, 1, [[⟨CellContent.Empty 0, CellVisibility.Hidden⟩]],
        GameState.Playing⟩ ⟨5, 7⟩ =
      ⟨1, 1, [[⟨CellContent.Empty 0, CellVisibility.Hidden⟩]],
        GameState.Playing⟩ :=
  claim_C9_oob_noop _ ⟨5, 7⟩ ⟨by decide, by decide⟩ (by decide)


/-! ### Every reveal is an evolution of the board -/

theorem evolves_finish (cell : CellStatus) {g g2 : Game} (h : evolves g g2) :
    evolves g
      (if cell.content = CellContent.Mine then { g2 with state := GameState.Lost }
      else if is_fully_revealed_and_marked g2 then { g2 with state := GameState.Won }
      else g2) := by
  split
  · exact evolves_set_state _ h
  · split
    · exact evolves_set_state _ h
    · exact h

theorem evolves_foldl_reveal (fuel : Nat)
    (ih : ∀ g c, evolves g (reveal_fuel fuel g c)) :
    ∀ (L : List Coordinate) (g : Game),
      evolves g (L.foldl (fun h n => reveal_fuel fuel h n) g) := by
  intro L
  induction L with
  | nil => intro g; exact evolves_refl g
  | cons n ns ihL =>
    intro g
    simp only [List.foldl_cons]
    exact evolves_trans (ih g n) (ihL _)

theorem evolves_foldl_reveal_from (fuel : Nat)
    (ih : ∀ g c, evolves g (reveal_fuel fuel g c)) (L : List Coordinate)
    {g g0 : Game} (h : evolves g0 g) :
    evolves g0 (L.foldl (fun h n => reveal_fuel fuel h n) g) :=
  evolves_trans h (evolves_foldl_reveal fuel ih L g)

theorem evolves_reveal_fuel : ∀ (fuel : Nat) (g : Game) (c : Coordinate),
    evolves g (reveal_fuel fuel g c) := by
  intro fuel
  induction fuel with
  | zero => intro g c; exact evolves_refl g
  | succ m ih =>
    intro g c
    by_cases hp : g.state = GameState.Playing
    · cases hc : getCell g c with
      | none => rw [reveal_fuel_oob _ hc]; exact evolves_refl g
      | some cell =>
        by_cases hh : cell.status = CellVisibility.Hidden
        · rw [reveal_fuel_succ_eq m hp hc hh]
          have hev1 : evolves g
              (setCell g c { cell with status := CellVisibility.Revealed }) :=
            evolves_setCell_reveal hc hh
          have hev2 : evolves g
              (if cell.content = CellContent.Empty 0 then
                ((setCell g c { cell with status := CellVisibility.Revealed
                  }).get_neighbours c).foldl (fun h n => reveal_fuel m h n)
                  (setCell g c { cell with status := CellVisibility.Revealed })
              else setCell g c { cell with status := CellVisibility.Revealed }) := by
            split
            · exact evolves_foldl_reveal_from m ih _ hev1
            · exact hev1
          exact evolves_finish cell hev2
        · rw [reveal_fuel_nonHidden _ hc hh]; exact evolves_refl g
    · rw [reveal_fuel_not_playing c _ hp]; exact evolves_refl g

theorem getCell_one {w h : Nat} {s : GameState} {a : CellStatus}
    {c : Coordinate} {cell : CellStatus}
    (hc : getCell ⟨w, h, [[a]], s⟩ c = some cell) : cell = a := by
  unfold getCell at hc
  obtain ⟨x, y⟩ := c
  cases y with
  | succ n => simp at hc
  | zero =>
    simp only [List.getElem?_cons_zero, Option.some_bind] at hc
    cases x with
    | zero => simp at hc; exact hc.symm
    | succ n => simp at  hc

/-- `toggle_flag_checked` with the intermediate board substituted in. -/
theorem toggle_eq_sub {g : Game} {c : Coordinate} {cell : CellStatus}
    (hp : g.state = GameState.Playing) (hc : getCell g c = some cell) :
    toggle_flag_checked g c =
      (if cell.content = CellContent.Mine ∧ is_fully_revealed_and_marked
          (setCell g c { cell with status :=
            if cell.status = CellVisibility.Hidden then CellVisibility.Flagged
            else if cell.status = CellVisibility.Flagged then CellVisibility.Hidden
            else cell.status }) then
        { setCell g c { cell with status :=
            if cell.status = CellVisibility.Hidden then CellVisibility.Flagged
            else if cell.status = CellVisibility.Flagged then CellVisibility.Hidden
            else cell.status } with state := GameState.Won }
      else setCell g c { cell with status :=
            if cell.status = CellVisibility.Hidden then CellVisibility.Flagged
            else if cell.status = CellVisibility.Flagged then CellVisibility.Hidden
            else cell.status }) :=
  toggle_eq hp hc

/-- `reveal_fuel` on a hidden `Empty(0)` cell, cascade substituted in. -/
theorem reveal_fuel_succ_zero_sub {g : Game} {c : Coordinate}
    {cell : CellStatus} (fuel : Nat) (hp : g.state = GameState.Playing)
    (hc : getCell g c = some cell) (hh : cell.status = CellVisibility.Hidden)
    (hm : cell.content = CellContent.Empty 0) :
    reveal_fuel (fuel + 1) g c =
      (if is_fully_revealed_and_marked
          (((setCell g c { cell with status := CellVisibility.Revealed
            }).get_neighbours c).foldl (fun h n => reveal_fuel fuel h n)
            (setCell g c { cell with status := CellVisibility.Revealed })) then
        { ((setCell g c { cell with status := CellVisibility.Revealed
            }).get_neighbours c).foldl (fun h n => reveal_fuel fuel h n)
            (setCell g c { cell with status := CellVisibility.Revealed }) with
          state := GameState.Won }
      else ((setCell g c { cell with status := CellVisibility.Revealed
            }).get_neighbours c).foldl (fun h n => reveal_fuel fuel h n)
            (setCell g c { cell with status := CellVisibility.Revealed })) :=
  reveal_fuel_succ_zero fuel hp hc hh hm

/-- C8 counterexample: on a 1×1 board holding a hidden mine, the first toggle
flags the last hidden cell of a mine and wins the game, so the second toggle
is a no-op and the cell stays `Flagged`; and toggling the revealed mine of a
1×1 board in `Playing` state changes the state to `Won`, so the board does
not stay unchanged. -/
theorem claim_C8_counterexample :
    getCell
        (toggle_flag_checked
          (toggle_flag_checked
            ⟨1, 1, [[⟨CellContent.Mine, CellVisibility.Hidden⟩]],
              GameState.Playing⟩ ⟨0, 0⟩) ⟨0, 0⟩) ⟨0, 0⟩
      = some ⟨CellContent.Mine, CellVisibility.Flagged⟩ ∧
    toggle_flag_checked
        ⟨1, 1, [[⟨CellContent.Mine, CellVisibility.Revealed⟩]],
          GameState.Playing⟩ ⟨0, 0⟩
      ≠ ⟨1, 1, [[⟨CellContent.Mine, CellVisibility.Revealed⟩]],
          GameState.Playing⟩ := by
  constructor
  · decide
  · decide

/-- C8 (amended): on a `Playing` board, toggling the same in-bounds `Hidden`
cell twice restores the whole board provided the first toggle leaves the
game in `Playing` state (the first toggle wins the game exactly when it
flags the last hidden cell while the cell holds a mine); and toggling a
`Revealed` cell never changes any cell, though it may move the state from
`Playing` to `Won` when the cell is a mine and no hidden cell exists. -/
theorem claim_C8_amended (g : Game) (c : Coordinate) (cell : CellStatus)
    (hw : WellFormed g) (hp : g.state = GameState.Playing)
    (hc : getCell g c = some cell) :
    (cell.status = CellVisibility.Hidden →
      (toggle_flag_checked g c).state = GameState.Playing →
      toggle_flag_checked (toggle_flag_checked g c) c = g) ∧
    (cell.status = CellVisibility.Revealed →
      (toggle_flag_checked g c).field = g.field ∧
      ((toggle_flag_checked g c).state = GameState.Playing ∨
        (toggle_flag_checked g c).state = GameState.Won)) := by
  constructor
  · intro hh hstate
    have hns : (if cell.status = CellVisibility.Hidden then CellVisibility.Flagged
        else if cell.status = CellVisibility.Flagged then CellVisibility.Hidden
        else cell.status) = CellVisibility.Flagged := by
      rw [hh]
      decide
    rw [toggle_eq_sub hp hc, hns] at hstate ⊢
    by_cases hcond : cell.content = CellContent.Mine ∧
        is_fully_revealed_and_marked
          (setCell g c { cell with status := CellVisibility.Flagged }) = true
    · rw [if_pos hcond] at hstate
      simp at hstate
    · rw [if_neg hcond] at hstate ⊢
      have hp1 : (setCell g c { cell with status := CellVisibility.Flagged
          }).state = GameState.Playing := by
        rw [setCell_state]; exact hp
      have hc1 : getCell
          (setCell g c { cell with status := CellVisibility.Flagged }) c =
          some { cell with status := CellVisibility.Flagged } :=
        getCell_setCell_self _ hc
      rw [toggle_eq_sub hp1 hc1]
      have hns2 : (if ({ cell with status := CellVisibility.Flagged
            } : CellStatus).status = CellVisibility.Hidden then CellVisibility.Flagged
          else if ({ cell with status := CellVisibility.Flagged
            } : CellStatus).status = CellVisibility.Flagged then CellVisibility.Hidden
          else ({ cell with status := CellVisibility.Flagged } : CellStatus).status)
          = CellVisibility.Hidden := rfl
      rw [hns2, setCell_setCell]
      have hcell : ({ cell with status := CellVisibility.Hidden } : CellStatus)
          = cell := by
        rw [← hh]
      rw [hcell, setCell_eq_self hc]
      rw [if_neg]
      rintro ⟨hm, hfull⟩
      exact (is_fully_iff_noHidden hw).mp hfull c cell hc hh
  · intro hrev
    have hns : (if cell.status = CellVisibility.Hidden then CellVisibility.Flagged
        else if cell.status = CellVisibility.Flagged then CellVisibility.Hidden
        else cell.status) = cell.status := by
      rw [hrev]
      decide
    rw [toggle_eq_sub hp hc, hns]
    have hcell : ({ cell with status := cell.status } : CellStatus) = cell := rfl
    rw [hcell, setCell_eq_self hc]
    split
    · exact ⟨rfl, Or.inr rfl⟩
    · exact ⟨rfl, Or.inl hp⟩

theorem claim_C8_witness :
    toggle_flag_checked
        (toggle_flag_checked
          ⟨1, 1, [[⟨CellContent.Empty 0, CellVisibility.Hidden⟩]],
            GameState.Playing⟩ ⟨0, 0⟩) ⟨0, 0⟩
      = ⟨1, 1, [[⟨CellContent.Empty 0, CellVisibility.Hidden⟩]],
          GameState.Playing⟩ :=
  (claim_C8_amended _ ⟨0, 0⟩ ⟨CellContent.Empty 0, CellVisibility.Hidden⟩
    ⟨by decide, by decide⟩ rfl (by decide)).1 rfl (by decide)

/-- C4 counterexample: toggling the only cell (a non-mine) of a 1×1 `Playing`
board leaves no `Hidden` cell and no revealed mine, yet the state stays
`Playing` — the source only runs the win check in `toggle_flag_checked` when
the toggled cell holds a mine. -/
theorem claim_C4_counterexample :
    toggle_flag_checked ⟨1, 1, [[⟨CellContent.Empty 0, CellVisibility.Hidden⟩]],
        GameState.Playing⟩ ⟨0, 0⟩
      = ⟨1, 1, [[⟨CellContent.Empty 0, CellVisibility.Flagged⟩]],
          GameState.Playing⟩ ∧
    noHiddenCell ⟨1, 1, [[⟨CellContent.Empty 0, CellVisibility.Flagged⟩]],
      GameState.Playing⟩ ∧
    ¬ HasRevealedMine ⟨1, 1, [[⟨CellContent.Empty 0, CellVisibility.Flagged⟩]],
      GameState.Playing⟩ ∧
    (⟨1, 1, [[⟨CellContent.Empty 0, CellVisibility.Flagged⟩]],
      GameState.Playing⟩ : Game).state ≠ GameState.Won := by
  refine ⟨by decide, ?_, ?_, by decide⟩
  · intro c cell hc
    rw [getCell_one hc]
    decide
  · rintro ⟨c, cell, hc, hm, -⟩
    rw [getCell_one hc] at hm
    cases hm

/-- C4 (amended): on a `Playing` board, after a reveal whose in-bounds target
was `Hidden`, if no cell is `Hidden` and no mine is `Revealed`, the state is
`Won`; after a toggle whose in-bounds target holds a `Mine`, if no cell is
`Hidden`, the state is `Won`.  (A reveal that hits a non-`Hidden` cell and a
toggle of a non-mine cell perform no win check, and the claim fails for
them.) -/
theorem claim_C4_amended (g : Game) (c : Coordinate) (cell : CellStatus)
    (hw : WellFormed g) (hp : g.state = GameState.Playing)
    (hc : getCell g c = some cell) :
    (cell.status = CellVisibility.Hidden →
      noHiddenCell (g.reveal c) → ¬ HasRevealedMine (g.reveal c) →
      (g.reveal c).state = GameState.Won) ∧
    (cell.content = CellContent.Mine →
      noHiddenCell (toggle_flag_checked g c) →
      (toggle_flag_checked g c).state = GameState.Won) := by
  constructor
  · intro hh hnh hnm
    unfold Game.reveal at hnh hnm ⊢
    cases hcon : cell.content with
    | Mine =>
      rw [reveal_fuel_succ_mine _ hp hc hh hcon] at hnh hnm ⊢
      exfalso
      apply hnm
      exact ⟨c, { cell with status := CellVisibility.Revealed },
        getCell_setCell_self _ hc, hcon, rfl⟩
    | Empty k =>
      by_cases hk : k = 0
      · subst hk
        rw [reveal_fuel_succ_zero_sub _ hp hc hh hcon] at hnh ⊢
        split at hnh
        · next hfull => rw [if_pos hfull]
        · next hfull =>
          exfalso
          apply hfull
          have hev : evolves g
              (((setCell g c { cell with status := CellVisibility.Revealed
                }).get_neighbours c).foldl
                (fun h n => reveal_fuel (hiddenCount g) h n)
                (setCell g c { cell with status := CellVisibility.Revealed })) :=
            evolves_foldl_reveal_from (hiddenCount g)
              (fun g' c' => evolves_reveal_fuel (hiddenCount g) g' c') _
              (evolves_setCell_reveal hc hh)
          exact (is_fully_iff_noHidden (WellFormed_evolves hev hw)).mpr hnh
      · rw [reveal_fuel_succ_nonzero _ hp hc hh hcon hk] at hnh ⊢
        split at hnh
        · next hfull => rw [if_pos hfull]
        · next hfull =>
          exfalso
          apply hfull
          exact (is_fully_iff_noHidden (WellFormed_setCell _ _ hw)).mpr hnh
  · intro hm hnh
    rw [toggle_eq_sub hp hc] at hnh ⊢
    by_cases hcond : cell.content = CellContent.Mine ∧
        is_fully_revealed_and_marked (setCell g c { cell with status :=
          if cell.status = CellVisibility.Hidden then CellVisibility.Flagged
          else if cell.status = CellVisibility.Flagged then CellVisibility.Hidden
          else cell.status }) = true
    · rw [if_pos hcond]
    · exfalso
      apply hcond
      rw [if_neg hcond] at hnh
      refine ⟨hm, ?_⟩
      exact (is_fully_iff_noHidden (WellFormed_setCell _ _ hw)).mpr hnh

theorem claim_C4_witness :
    (Game.reveal ⟨1, 1, [[⟨CellContent.Empty 0, CellVisibility.Hidden⟩]],
        GameState.Playing⟩ ⟨0, 0⟩).state = GameState.Won := by
  have hev : Game.reveal ⟨1, 1, [[⟨CellContent.Empty 0, CellVisibility.Hidden⟩]],
      GameState.Playing⟩ ⟨0, 0⟩
      = ⟨1, 1, [[⟨CellContent.Empty 0, CellVisibility.Revealed⟩]],
          GameState.Won⟩ := by decide
  refine (claim_C4_amended _ ⟨0, 0⟩ ⟨CellContent.Empty 0, CellVisibility.Hidden⟩
    ⟨by decide, by decide⟩ rfl (by decide)).1 rfl ?_ ?_
  · rw [hev]
    intro c cell hc
    rw [getCell_one hc]
    decide
  · rw [hev]
    rintro ⟨c, cell, hc, hm, -⟩
    rw [getCell_one hc] at hm
    cases hm

/-! ### Small coordinate and counting helpers for the cascade proof -/

theorem coord_eq_of {c d : Coordinate} (hx : c.x = d.x) (hy : c.y = d.y) :
    c = d := by
  cases c; cases d; simp_all

theorem coord_ne_components {c d : Coordinate} (h : d ≠ c) :
    c.x ≠ d.x ∨ c.y ≠ d.y := by
  by_contra hcon
  push_neg at hcon
  exact h (coord_eq_of hcon.1 hcon.2).symm

theorem hiddenCount_setCell_reveal {g : Game} {c : Coordinate}
    {cell : CellStatus} (hc : getCell g c = some cell)
    (hh : cell.status = CellVisibility.Hidden) :
    hiddenCount (setCell g c { cell with status := CellVisibility.Revealed })
      + 1 = hiddenCount g := by
  have h := hiddenCount_setCell
    ({ cell with status := CellVisibility.Revealed }) hc
  simp only [hh, if_pos] at h
  simp at h
  omega

theorem hiddenCount_pos {g : Game} {c : Coordinate} {cell : CellStatus}
    (hc : getCell g c = some cell)
    (hh : cell.status = CellVisibility.Hidden) : 1 ≤ hiddenCount g :=
  sum_countP_pos _ hc (by simp [hh])

theorem HasRevealedMine_setCell_back {g : Game} {c : Coordinate}
    {cell b : CellStatus} (hc : getCell g c = some cell)
    (hb : b.content ≠ CellContent.Mine)
    (h : HasRevealedMine (setCell g c b)) : HasRevealedMine g := by
  obtain ⟨d, celld, hd, hm, hr⟩ := h
  by_cases hdc : c.x = d.x ∧ c.y = d.y
  · have heq : c = d := coord_eq_of hdc.1 hdc.2
    subst heq
    rw [getCell_setCell_self b hc] at hd
    cases hd
    exact absurd hm hb
  · rw [getCell_setCell_ne b (by tauto)] at hd
    exact ⟨d, celld, hd, hm, hr⟩

theorem NewClosedExcept_mono {g0 g : Game} {S1 S2 : Coordinate → Prop}
    (hss : ∀ d, S1 d → S2 d) (h : NewClosedExcept g0 g S1) :
    NewClosedExcept g0 g S2 :=
  fun d c0 c1 hd => h d c0 c1 (fun hs1 => hd (hss d hs1))

theorem NewClosedExcept_setCell_reveal {g0 g : Game} {c : Coordinate}
    {cell : CellStatus} {S : Coordinate → Prop}
    (hnce : NewClosedExcept g0 g S) (hc : getCell g c = some cell) :
    NewClosedExcept g0
      (setCell g c { cell with status := CellVisibility.Revealed })
      (fun d => S d ∨ d = c) := by
  intro d celld0 celld hdS hd0 hd0s hd1 hd1s hd1c e celle he hcelle
  have hS : ¬ S d := fun h => hdS (Or.inl h)
  have hne : d ≠ c := fun h => hdS (Or.inr h)
  have hdne : c.x ≠ d.x ∨ c.y ≠ d.y := coord_ne_components hne
  rw [getCell_setCell_ne _ hdne] at hd1
  by_cases hec : c.x = e.x ∧ c.y = e.y
  · have heq : c = e := coord_eq_of hec.1 hec.2
    subst heq
    rw [getCell_setCell_self _ hc] at hcelle
    cases hcelle
    simp
  · rw [getCell_setCell_ne _ (by tauto)] at hcelle
    exact hnce d celld0 celld hS hd0 hd0s hd1 hd1s hd1c e celle he hcelle

theorem reveal_fold (g0 : Game) (fuel : Nat)
    (IH : ∀ g c S, RevealPre g0 fuel g c S →
      RevealPost g0 g c S (reveal_fuel fuel g c)) :
    ∀ (L : List Coordinate) (g : Game) (S : Coordinate → Prop),
      WellFormed g0 → CorrectCounts g0 → evolves g0 g →
      hiddenCount g ≤ fuel →
      (g.state = GameState.Playing ∨ noHiddenCell g) →
      NewClosedExcept g0 g S →
      (∀ n ∈ L, ∀ cell0, getCell g0 n = some cell0 →
        cell0.content ≠ CellContent.Mine) →
      ((L.foldl (fun h n => reveal_fuel fuel h n) g).state = g.state ∨
        ((L.foldl (fun h n => reveal_fuel fuel h n) g).state = GameState.Won ∧
          noHiddenCell (L.foldl (fun h n => reveal_fuel fuel h n) g))) ∧
      NewClosedExcept g0 (L.foldl (fun h n => reveal_fuel fuel h n) g) S ∧
      (∀ n ∈ L, ∀ celln,
        getCell (L.foldl (fun h n => reveal_fuel fuel h n) g) n = some celln →
        celln.status ≠ CellVisibility.Hidden) ∧
      (HasRevealedMine (L.foldl (fun h n => reveal_fuel fuel h n) g) →
        HasRevealedMine g) := by
  intro L
  induction L with
  | nil =>
    intro g S hw0 hcc0 hev hcnt hps hnce hHL
    exact ⟨Or.inl rfl, hnce, by simp, fun h => h⟩
  | cons n ns ihL =>
    intro g S hw0 hcc0 hev hcnt hps hnce hHL
    simp only [List.foldl_cons]
    obtain ⟨P2, P3, P4, -, P6⟩ :=
      IH g n S ⟨hw0, hcc0, hev, hcnt, hps,
        hHL n (List.mem_cons_self n ns), hnce⟩
    have hev1 : evolves g (reveal_fuel fuel g n) := evolves_reveal_fuel fuel g n
    have hps1 : (reveal_fuel fuel g n).state = GameState.Playing ∨
        noHiddenCell (reveal_fuel fuel g n) := by
      rcases P2 with heq | ⟨hwon, hnh⟩
      · rcases hps with hpl | hnh
        · exact Or.inl (heq.trans hpl)
        · exact Or.inr (noHiddenCell_evolves hev1 hnh)
      · exact Or.inr hnh
    obtain ⟨Q2, Q3, Q4, Q6⟩ :=
      ihL (reveal_fuel fuel g n) S hw0 hcc0 (evolves_trans hev hev1)
        (le_trans (hiddenCount_le_of_evolves hev1) hcnt) hps1 P3
        (fun m hm => hHL m (List.mem_cons_of_mem n hm))
    have hevf : evolves (reveal_fuel fuel g n)
        (ns.foldl (fun h n => reveal_fuel fuel h n) (reveal_fuel fuel g n)) :=
      evolves_foldl_reveal fuel (evolves_reveal_fuel fuel) ns _
    refine ⟨?_, Q3, ?_, fun h => P6 (Q6 h)⟩
    · rcases Q2 with heq | ⟨hwon, hnh⟩
      · rcases P2 with heq' | ⟨hwon', hnh'⟩
        · exact Or.inl (heq.trans heq')
        · exact Or.inr ⟨heq.trans hwon', noHiddenCell_evolves hevf hnh'⟩
      · exact Or.inr ⟨hwon, hnh⟩
    · intro m hm celln hcelln hst
      rcases List.mem_cons.mp hm with rfl | hmem
      · cases hc1 : getCell (reveal_fuel fuel g m) m with
        | none =>
          rw [(evolves_getCell_none hevf).mp hc1] at hcelln
          cases hcelln
        | some cn =>
          have hcn : cn.status ≠ CellVisibility.Hidden := P4 cn hc1
          rw [nonHidden_stable_of_evolves hevf hc1 hcn] at hcelln
          cases hcelln
          exact hcn hst
      · exact Q4 m hmem celln hcelln hst

theorem reveal_master (g0 : Game) : ∀ (fuel : Nat) (g : Game) (c : Coordinate)
    (S : Coordinate → Prop), RevealPre g0 fuel g c S →
    RevealPost g0 g c S (reveal_fuel fuel g c) := by
  intro fuel
  induction fuel with
  | zero =>
    intro g c S hpre
    obtain ⟨hw0, hcc0, hev, hcnt, hps, hm0, hnce⟩ := hpre
    have hnh : noHiddenCell g := hiddenCount_zero_iff.mp (Nat.le_zero.mp hcnt)
    exact ⟨Or.inl rfl, hnce, fun celld hcd => hnh c celld hcd,
      fun cellc hcc hhid => absurd hhid (hnh c cellc hcc), fun h => h⟩
  | succ m ih =>
    intro g c S hpre
    obtain ⟨hw0, hcc0, hev, hcnt, hps, hm0, hnce⟩ := hpre
    by_cases hp : g.state = GameState.Playing
    case neg =>
      have hnh : noHiddenCell g := hps.resolve_left hp
      rw [reveal_fuel_not_playing c _ hp]
      exact ⟨Or.inl rfl, hnce, fun celld hcd => hnh c celld hcd,
        fun cellc hcc hhid => absurd hhid (hnh c cellc hcc), fun h => h⟩
    case pos =>
    cases hc : getCell g c with
    | none =>
      rw [reveal_fuel_oob _ hc]
      refine ⟨Or.inl rfl, hnce, ?_, ?_, fun h => h⟩
      · intro celld hcd; rw [hc] at hcd; cases hcd
      · intro cellc hcc; rw [hc] at hcc; cases hcc
    | some cell =>
      by_cases hh : cell.status = CellVisibility.Hidden
      case neg =>
        rw [reveal_fuel_nonHidden _ hc hh]
        refine ⟨Or.inl rfl, hnce, ?_, ?_, fun h => h⟩
        · intro celld hcd; rw [hc] at hcd; cases hcd; exact hh
        · intro cellc hcc hhid; rw [hc] at hcc; cases hcc; exact absurd hhid hh
      case pos =>
      obtain ⟨cell0, hc0, hev0⟩ := evolves_getCell_back hev hc
      have hcon0 : cell.content = cell0.content := hev0.1
      have hnotmine : cell.content ≠ CellContent.Mine := by
        rw [hcon0]; exact hm0 cell0 hc0
      have hc1 : getCell (setCell g c { cell with status := CellVisibility.Revealed }) c
          = some { cell with status := CellVisibility.Revealed } :=
        getCell_setCell_self _ hc
      have hevg1 : evolves g (setCell g c { cell with status := CellVisibility.Revealed }) :=
        evolves_setCell_reveal hc hh
      have hevg01 : evolves g0 (setCell g c { cell with status := CellVisibility.Revealed }) :=
        evolves_trans hev hevg1
      have hcnt1 : hiddenCount (setCell g c { cell with status := CellVisibility.Revealed }) ≤ m := by
        have := hiddenCount_setCell_reveal hc hh
        omega
      have hp1 : (setCell g c { cell with status := CellVisibility.Revealed }).state
          = GameState.Playing := by
        rw [setCell_state]; exact hp
      have hnce1 : NewClosedExcept g0
          (setCell g c { cell with status := CellVisibility.Revealed })
          (fun d => S d ∨ d = c) :=
        NewClosedExcept_setCell_reveal hnce hc
      have hK6base : HasRevealedMine
          (setCell g c { cell with status := CellVisibility.Revealed }) →
          HasRevealedMine g :=
        HasRevealedMine_setCell_back hc hnotmine
      cases hcontent : cell.content with
      | Mine => exact absurd hcontent hnotmine
      | Empty k =>
        by_cases hk : k = 0
        case pos =>
          subst hk
          rw [reveal_fuel_succ_zero_sub m hp hc hh hcontent]
          have hW1 : (setCell g c { cell with status := CellVisibility.Revealed }).width
              = g0.width := by rw [setCell_width]; exact hev.1
          have hH1 : (setCell g c { cell with status := CellVisibility.Revealed }).height
              = g0.height := by rw [setCell_height]; exact hev.2.1
          have hLrw : (setCell g c { cell with status := CellVisibility.Revealed
              }).get_neighbours c = g0.get_neighbours c :=
            get_neighbours_congr hW1 hH1 c
          have hHL : ∀ n ∈ (setCell g c { cell with status := CellVisibility.Revealed
              }).get_neighbours c, ∀ cell0', getCell g0 n = some cell0' →
              cell0'.content ≠ CellContent.Mine := by
            rw [hLrw]
            intro n hn cell0' hn0
            exact no_mine_neighbour hcc0 hc0 (by rw [← hcon0, hcontent]) n hn cell0' hn0
          obtain ⟨Q2, Q3, Q4, Q6⟩ :=
            reveal_fold g0 m ih
              ((setCell g c { cell with status := CellVisibility.Revealed
                }).get_neighbours c)
              (setCell g c { cell with status := CellVisibility.Revealed })
              (fun d => S d ∨ d = c)
              hw0 hcc0 hevg01 hcnt1 (Or.inl hp1) hnce1 hHL
          have hevg1f : evolves (setCell g c { cell with status := CellVisibility.Revealed })
              (((setCell g c { cell with status := CellVisibility.Revealed
                }).get_neighbours c).foldl (fun h n => reveal_fuel m h n)
                (setCell g c { cell with status := CellVisibility.Revealed })) :=
            evolves_foldl_reveal m (evolves_reveal_fuel m) _ _
          have hcf : getCell
              (((setCell g c { cell with status := CellVisibility.Revealed
                }).get_neighbours c).foldl (fun h n => reveal_fuel m h n)
                (setCell g c { cell with status := CellVisibility.Revealed })) c
              = some { cell with status := CellVisibility.Revealed } :=
            nonHidden_stable_of_evolves hevg1f hc1 (by simp)
          have hKc : NewClosedExcept g0
              (((setCell g c { cell with status := CellVisibility.Revealed
                }).get_neighbours c).foldl (fun h n => reveal_fuel m h n)
                (setCell g c { cell with status := CellVisibility.Revealed }))
              (fun d => S d ∧ d ≠ c) := by
            intro d celld0 celld hdS hd0 hd0s hd1 hd1s hd1c e celle he hcelle
            by_cases hdc : d = c
            · subst hdc
              have hmem : e ∈ (setCell g d { cell with status := CellVisibility.Revealed
                  }).get_neighbours d := by rw [hLrw]; exact he
              exact Q4 e hmem celle hcelle
            · have hout : ¬ (S d ∨ d = c) := by
                rintro (hs | hrfl)
                · exact hdS ⟨hs, hdc⟩
                · exact hdc hrfl
              exact Q3 d celld0 celld hout hd0 hd0s hd1 hd1s hd1c e celle he hcelle
          have hK3 : NewClosedExcept g0
              (((setCell g c { cell with status := CellVisibility.Revealed
                }).get_neighbours c).foldl (fun h n => reveal_fuel m h n)
                (setCell g c { cell with status := CellVisibility.Revealed })) S :=
            NewClosedExcept_mono (fun d hd => hd.1) hKc
          have hK6 : HasRevealedMine
              (((setCell g c { cell with status := CellVisibility.Revealed
                }).get_neighbours c).foldl (fun h n => reveal_fuel m h n)
                (setCell g c { cell with status := CellVisibility.Revealed })) →
              HasRevealedMine g := fun hmr => hK6base (Q6 hmr)
          have hK4 : ∀ celld, getCell
              (((setCell g c { cell with status := CellVisibility.Revealed
                }).get_neighbours c).foldl (fun h n => reveal_fuel m h n)
                (setCell g c { cell with status := CellVisibility.Revealed })) c
              = some celld → celld.status ≠ CellVisibility.Hidden := by
            intro celld hcd
            rw [hcf] at hcd
            cases hcd
            simp
          by_cases hfull : is_fully_revealed_and_marked
              (((setCell g c { cell with status := CellVisibility.Revealed
                }).get_neighbours c).foldl (fun h n => reveal_fuel m h n)
                (setCell g c { cell with status := CellVisibility.Revealed })) = true
          · rw [if_pos hfull]
            have hwf : WellFormed
                (((setCell g c { cell with status := CellVisibility.Revealed
                  }).get_neighbours c).foldl (fun h n => reveal_fuel m h n)
                  (setCell g c { cell with status := CellVisibility.Revealed })) :=
              WellFormed_evolves (evolves_trans hevg01 hevg1f) hw0
            have hnhf : noHiddenCell
                (((setCell g c { cell with status := CellVisibility.Revealed
                  }).get_neighbours c).foldl (fun h n => reveal_fuel m h n)
                  (setCell g c { cell with status := CellVisibility.Revealed })) :=
              (is_fully_iff_noHidden hwf).mp hfull
            exact ⟨Or.inr ⟨rfl, hnhf⟩, hK3, hK4, fun _ _ _ => hKc, hK6⟩
          · rw [if_neg hfull]
            refine ⟨?_, hK3, hK4, fun _ _ _ => hKc, hK6⟩
            rcases Q2 with heq | hwn
            · rw [heq, setCell_state]
              exact Or.inl rfl
            · exact Or.inr hwn
        case neg =>
          rw [reveal_fuel_succ_nonzero m hp hc hh hcontent hk]
          have hKc : NewClosedExcept g0
              (setCell g c { cell with status := CellVisibility.Revealed })
              (fun d => S d ∧ d ≠ c) := by
            intro d celld0 celld hdS hd0 hd0s hd1 hd1s hd1c e celle he hcelle
            by_cases hdc : d = c
            · subst hdc
              rw [hc1] at hd1
              cases hd1
              rw [hcontent] at hd1c
              simp at hd1c
              exact absurd hd1c hk
            · have hout : ¬ (S d ∨ d = c) := by
                rintro (hs | hrfl)
                · exact hdS ⟨hs, hdc⟩
                · exact hdc hrfl
              exact hnce1 d celld0 celld hout hd0 hd0s hd1 hd1s hd1c e celle he hcelle
          have hK3 : NewClosedExcept g0
              (setCell g c { cell with status := CellVisibility.Revealed }) S :=
            NewClosedExcept_mono (fun d hd => hd.1) hKc
          have hK4 : ∀ celld, getCell
              (setCell g c { cell with status := CellVisibility.Revealed }) c
              = some celld → celld.status ≠ CellVisibility.Hidden := by
            intro celld hcd
            rw [hc1] at hcd
            cases hcd
            simp
          by_cases hfull : is_fully_revealed_and_marked
              (setCell g c { cell with status := CellVisibility.Revealed }) = true
          · rw [if_pos hfull]
            have hwf : WellFormed
                (setCell g c { cell with status := CellVisibility.Revealed }) :=
              WellFormed_evolves hevg01 hw0
            have hnhf : noHiddenCell
                (setCell g c { cell with status := CellVisibility.Revealed }) :=
              (is_fully_iff_noHidden hwf).mp hfull
            exact ⟨Or.inr ⟨rfl, hnhf⟩, hK3, hK4, fun _ _ _ => hKc, hK6base⟩
          · rw [if_neg hfull]
            refine ⟨?_, hK3, hK4, fun _ _ _ => hKc, hK6base⟩
            rw [setCell_state]
            exact Or.inl rfl

theorem is_lost_iff {g : Game} (hw : WellFormed g) :
    is_lost g = true ↔ HasRevealedMine g := by
  unfold is_lost
  simp only [List.any_eq_true, List.mem_range]
  constructor
  · rintro ⟨x, hx, y, hy, hcell⟩
    cases hget : getCell g ⟨x, y⟩ with
    | none => rw [hget] at hcell; simp at hcell
    | some cell =>
      rw [hget] at hcell
      simp only [Bool.and_eq_true, decide_eq_true_eq] at hcell
      exact ⟨⟨x, y⟩, cell, hget, hcell.1, hcell.2⟩
  · rintro ⟨c, cell, hc, hm, hr⟩
    obtain ⟨hx, hy⟩ := lt_of_getCell_some hw hc
    refine ⟨c.x, hx, c.y, hy, ?_⟩
    have hmk : Coordinate.mk c.x c.y = c := rfl
    rw [hmk, hc]
    simp [hm, hr]

theorem HasRevealedMine_setCell_unrevealed {g : Game} {c : Coordinate}
    {cell b : CellStatus} (hc : getCell g c = some cell)
    (hb : b.status ≠ CellVisibility.Revealed)
    (h : HasRevealedMine (setCell g c b)) : HasRevealedMine g := by
  obtain ⟨d, celld, hd, hm, hr⟩ := h
  by_cases hdc : c.x = d.x ∧ c.y = d.y
  · have heq : c = d := coord_eq_of hdc.1 hdc.2
    subst heq
    rw [getCell_setCell_self b hc] at hd
    cases hd
    exact absurd hr hb
  · rw [getCell_setCell_ne b (by tauto)] at hd
    exact ⟨d, celld, hd, hm, hr⟩

theorem NewClosedExcept_of_self (g : Game) (S : Coordinate → Prop) :
    NewClosedExcept g g S := by
  intro d celld0 celld hdS hd0 hd0s hd1 hd1s hd1c
  rw [hd0] at hd1
  cases hd1
  rw [hd0s] at hd1s
  cases hd1s

theorem BoardInv_reveal {g : Game} (c : Coordinate) (hI : BoardInv g) :
    BoardInv (g.reveal c) := by
  obtain ⟨hw, hcc, hiff⟩ := hI
  unfold Game.reveal
  by_cases hp : g.state = GameState.Playing
  case neg => rw [reveal_fuel_not_playing c _ hp]; exact ⟨hw, hcc, hiff⟩
  case pos =>
  have hnrm : ¬ HasRevealedMine g := by
    intro hrm
    rw [← hiff] at hrm
    rw [hp] at hrm
    cases hrm
  cases hc : getCell g c with
  | none => rw [reveal_fuel_oob _ hc]; exact ⟨hw, hcc, hiff⟩
  | some cell =>
    by_cases hh : cell.status = CellVisibility.Hidden
    case neg => rw [reveal_fuel_nonHidden _ hc hh]; exact ⟨hw, hcc, hiff⟩
    case pos =>
    by_cases hm : cell.content = CellContent.Mine
    · rw [reveal_fuel_succ_mine _ hp hc hh hm]
      refine ⟨?_, ?_, ?_⟩
      · exact WellFormed_setCell c _ hw
      · exact CorrectCounts_sameBoard (sameBoard_setCell hc rfl) hcc
      · constructor
        · intro _
          exact ⟨c, { cell with status := CellVisibility.Revealed },
            getCell_setCell_self _ hc, hm, rfl⟩
        · intro _
          rfl
    · have hpost := reveal_master g (hiddenCount g + 1) g c (fun _ => False)
        ⟨hw, hcc, evolves_refl g, Nat.le_succ _, Or.inl hp,
          (by intro cell0 hc0; rw [hc0] at hc; cases hc; exact hm),
          NewClosedExcept_of_self g _⟩
      obtain ⟨K2, -, -, -, K6⟩ := hpost
      have hev : evolves g (reveal_fuel (hiddenCount g + 1) g c) :=
        evolves_reveal_fuel (hiddenCount g + 1) g c
      refine ⟨WellFormed_evolves hev hw, CorrectCounts_evolves hev hcc, ?_⟩
      constructor
      · intro hlost
        exfalso
        rcases K2 with heq | ⟨hwon, -⟩
        · rw [hlost] at heq
          rw [hp] at heq
          cases heq
        · rw [hlost] at hwon
          cases hwon
      · intro hrm
        exact absurd (K6 hrm) hnrm

theorem BoardInv_toggle {g : Game} (c : Coordinate) (hI : BoardInv g) :
    BoardInv (toggle_flag_checked g c) := by
  obtain ⟨hw, hcc, hiff⟩ := hI
  by_cases hp : g.state = GameState.Playing
  case neg => rw [toggle_not_playing c hp]; exact ⟨hw, hcc, hiff⟩
  case pos =>
  have hnrm : ¬ HasRevealedMine g := by
    intro hrm
    rw [← hiff] at hrm
    rw [hp] at hrm
    cases hrm
  cases hc : getCell g c with
  | none => rw [toggle_oob hc]; exact ⟨hw, hcc, hiff⟩
  | some cell =>
    rw [toggle_eq_sub hp hc]
    have hw1 : WellFormed (setCell g c { cell with status :=
        if cell.status = CellVisibility.Hidden then CellVisibility.Flagged
        else if cell.status = CellVisibility.Flagged then CellVisibility.Hidden
        else cell.status }) := WellFormed_setCell c _ hw
    have hcc1 : CorrectCounts (setCell g c { cell with status :=
        if cell.status = CellVisibility.Hidden then CellVisibility.Flagged
        else if cell.status = CellVisibility.Flagged then CellVisibility.Hidden
        else cell.status }) :=
      CorrectCounts_sameBoard (sameBoard_setCell hc rfl) hcc
    have hnrm1 : ¬ HasRevealedMine (setCell g c { cell with status :=
        if cell.status = CellVisibility.Hidden then CellVisibility.Flagged
        else if cell.status = CellVisibility.Flagged then CellVisibility.Hidden
        else cell.status }) := by
      by_cases hrev : cell.status = CellVisibility.Revealed
      · have hns : (if cell.status = CellVisibility.Hidden then CellVisibility.Flagged
            else if cell.status = CellVisibility.Flagged then CellVisibility.Hidden
            else cell.status) = cell.status := by
          rw [hrev]
          decide
        rw [hns]
        have hcell : ({ cell with status := cell.status } : CellStatus) = cell := rfl
        rw [hcell, setCell_eq_self hc]
        exact hnrm
      · intro hrm
        apply hnrm
        refine HasRevealedMine_setCell_unrevealed hc ?_ hrm
        simp only
        split
        · intro hcon; cases hcon
        · split
          · intro hcon; cases hcon
          · exact hrev
    by_cases hcond : cell.content = CellContent.Mine ∧
        is_fully_revealed_and_marked (setCell g c { cell with status :=
          if cell.status = CellVisibility.Hidden then CellVisibility.Flagged
          else if cell.status = CellVisibility.Flagged then CellVisibility.Hidden
          else cell.status }) = true
    · rw [if_pos hcond]
      exact ⟨hw1, hcc1, by
        constructor
        · intro hlost; cases hlost
        · intro hrm; exact absurd hrm hnrm1⟩
    · rw [if_neg hcond]
      refine ⟨hw1, hcc1, ?_⟩
      constructor
      · intro hlost
        rw [setCell_state] at hlost
        rw [hp] at hlost
        cases hlost
      · intro hrm
        exact absurd hrm hnrm1

theorem BoardInv_playGame {g : Game} (acts : List PlayerAction)
    (hI : BoardInv g) : BoardInv (playGame g acts) := by
  induction acts generalizing g with
  | nil => exact hI
  | cons a rest ih =>
    cases a with
    | reveal c => exact ih (BoardInv_reveal c hI)
    | flag c => exact ih (BoardInv_toggle c hI)

/-- C10: starting from a fresh board (all cells hidden, correct counts,
`Playing`), after any sequence of reveal and flag actions the state is
`Lost` exactly when some mine-content cell is `Revealed` (equivalently,
exactly when the source's `is_lost` scan returns true); in particular the
`Empty(0)` cascade never reveals a mine, and no `Playing` or `Won` board
reachable this way has a revealed mine. -/
theorem claim_C10_lost_iff_revealed_mine (g0 : Game)
    (acts : List PlayerAction) (hw : WellFormed g0) (hcc : CorrectCounts g0)
    (hah : allHidden g0) (hp : g0.state = GameState.Playing) :
    ((playGame g0 acts).state = GameState.Lost ↔
      HasRevealedMine (playGame g0 acts)) ∧
    ((playGame g0 acts).state = GameState.Lost ↔
      is_lost (playGame g0 acts) = true) := by
  have hI0 : BoardInv g0 := by
    refine ⟨hw, hcc, ?_⟩
    constructor
    · intro hlost
      rw [hp] at hlost
      cases hlost
    · rintro ⟨c, cell, hc, hm, hr⟩
      have hhid := hah c cell hc
      rw [hhid] at hr
      cases hr
  obtain ⟨hwf, -, hiff⟩ := BoardInv_playGame acts hI0
  exact ⟨hiff, by rw [hiff]; exact (is_lost_iff hwf).symm⟩

theorem claim_C10_witness :
    (playGame ⟨1, 1, [[⟨CellContent.Mine, CellVisibility.Hidden⟩]],
        GameState.Playing⟩ [PlayerAction.reveal ⟨0, 0⟩]).state
      = GameState.Lost ↔
    HasRevealedMine (playGame
      ⟨1, 1, [[⟨CellContent.Mine, CellVisibility.Hidden⟩]],
        GameState.Playing⟩ [PlayerAction.reveal ⟨0, 0⟩]) :=
  (claim_C10_lost_iff_revealed_mine _ _ ⟨by decide, by decide⟩
    (fun c cell n hc hcon => by
      rw [getCell_one hc] at hcon
      simp at hcon)
    (fun c cell hc => by rw [getCell_one hc])
    rfl).1

theorem RegionCell_spec {g : Game} {c d : Coordinate}
    (h : RegionCell g c d) :
    ∃ cell, getCell g d = some cell ∧
      cell.status = CellVisibility.Hidden ∧
      cell.content = CellContent.Empty 0 := by
  induction h with
  | base hb => exact hb
  | step hreg hcell hadj ih => exact hcell

theorem DiffIn_setCell_reveal {g0 g : Game} {c0 c : Coordinate}
    {cell : CellStatus} (hdiff : DiffIn g0 g c0)
    (hRB : RB g0 c0 c) :
    DiffIn g0 (setCell g c { cell with status := CellVisibility.Revealed })
      c0 := by
  intro d celld0 celld hd0 hd hne
  by_cases hdc : c.x = d.x ∧ c.y = d.y
  · exact (coord_eq_of hdc.1 hdc.2) ▸ hRB
  · rw [getCell_setCell_ne _ (by tauto)] at hd
    exact hdiff d celld0 celld hd0 hd hne

theorem soundness_fold (g0 : Game) (c0 : Coordinate) (fuel : Nat)
    (IH : ∀ g c, evolves g0 g → DiffIn g0 g c0 → OKTarget g0 c0 c →
      DiffIn g0 (reveal_fuel fuel g c) c0) :
    ∀ (L : List Coordinate) (g : Game), evolves g0 g → DiffIn g0 g c0 →
      (∀ n ∈ L, OKTarget g0 c0 n) →
      DiffIn g0 (L.foldl (fun h n => reveal_fuel fuel h n) g) c0 := by
  intro L
  induction L with
  | nil => intro g hev hdiff hOK; exact hdiff
  | cons n ns ihL =>
    intro g hev hdiff hOK
    simp only [List.foldl_cons]
    exact ihL (reveal_fuel fuel g n)
      (evolves_trans hev (evolves_reveal_fuel fuel g n))
      (IH g n hev hdiff (hOK n (List.mem_cons_self n ns)))
      (fun m hm => hOK m (List.mem_cons_of_mem n hm))

theorem soundness_master (g0 : Game) (c0 : Coordinate)
    (hcc0 : CorrectCounts g0) :
    ∀ (fuel : Nat) (g : Game) (c : Coordinate), evolves g0 g →
      DiffIn g0 g c0 → OKTarget g0 c0 c →
      DiffIn g0 (reveal_fuel fuel g c) c0 := by
  intro fuel
  induction fuel with
  | zero => intro g c hev hdiff hOK; exact hdiff
  | succ m ih =>
    intro g c hev hdiff hOK
    by_cases hp : g.state = GameState.Playing
    case neg => rw [reveal_fuel_not_playing c _ hp]; exact hdiff
    case pos =>
    cases hc : getCell g c with
    | none => rw [reveal_fuel_oob _ hc]; exact hdiff
    | some cell =>
      by_cases hh : cell.status = CellVisibility.Hidden
      case neg => rw [reveal_fuel_nonHidden _ hc hh]; exact hdiff
      case pos =>
      obtain ⟨cell0, hc0, hev0⟩ := evolves_getCell_back hev hc
      have hc0hid : cell0.status = CellVisibility.Hidden := by
        rcases hev0.2 with heq | ⟨h1, h2⟩
        · rw [← heq, hh]
        · exact h1
      have hRB : RB g0 c0 c := by
        rcases hOK with hnone | ⟨cell0', hc0', hst'⟩ | hrb
        · rw [hnone] at hc0; cases hc0
        · rw [hc0'] at hc0; cases hc0; exact absurd hc0hid hst'
        · exact hrb
      have hdiff1 : DiffIn g0
          (setCell g c { cell with status := CellVisibility.Revealed }) c0 :=
        DiffIn_setCell_reveal hdiff hRB
      cases hcontent : cell.content with
      | Mine =>
        rw [reveal_fuel_succ_mine m hp hc hh hcontent]
        exact hdiff1
      | Empty k =>
        by_cases hk : k = 0
        case pos =>
          subst hk
          rw [reveal_fuel_succ_zero_sub m hp hc hh hcontent]
          have hcon0 : cell0.content = CellContent.Empty 0 := by
            rw [← hev0.1, hcontent]
          have hreg : RegionCell g0 c0 c := by
            rcases hRB with hr | hb
            · exact hr
            · obtain ⟨⟨cellb, nb, hcb, hbhid, hbcon, hbne⟩, -⟩ := hb
              rw [hcb] at hc0
              cases hc0
              rw [hcon0] at hbcon
              cases hbcon
              exact absurd rfl hbne
          have hW1 : (setCell g c { cell with status := CellVisibility.Revealed
              }).width = g0.width := by rw [setCell_width]; exact hev.1
          have hH1 : (setCell g c { cell with status := CellVisibility.Revealed
              }).height = g0.height := by rw [setCell_height]; exact hev.2.1
          have hLrw : (setCell g c { cell with status := CellVisibility.Revealed
              }).get_neighbours c = g0.get_neighbours c :=
            get_neighbours_congr hW1 hH1 c
          have hOKn : ∀ n ∈ (setCell g c { cell with status :=
              CellVisibility.Revealed }).get_neighbours c,
              OKTarget g0 c0 n := by
            intro n hn
            rw [hLrw] at hn
            cases hn0 : getCell g0 n with
            | none => exact Or.inl hn0
            | some celln =>
              by_cases hnst : celln.status = CellVisibility.Hidden
              case neg => exact Or.inr (Or.inl ⟨celln, hn0, hnst⟩)
              case pos =>
              by_cases hnc : n = c
              · exact Or.inr (Or.inr (hnc ▸ hRB))
              · have hadj : Adjacent g0.width g0.height c n := by
                  obtain ⟨hx, hy, hnx, hny⟩ := (mem_get_neighbours g0 c n).mp hn
                  exact ⟨fun hcn => hnc hcn.symm, hx, hy, hnx, hny⟩
                cases hncon : celln.content with
                | Mine =>
                  exact absurd hncon
                    (no_mine_neighbour hcc0 hc0 hcon0 n hn celln hn0)
                | Empty kn =>
                  by_cases hkn : kn = 0
                  · subst hkn
                    exact Or.inr (Or.inr (Or.inl
                      (RegionCell.step hreg ⟨celln, hn0, hnst, hncon⟩ hadj)))
                  · exact Or.inr (Or.inr (Or.inr
                      ⟨⟨celln, kn, hn0, hnst, hncon, hkn⟩, c, hreg, hadj⟩))
          have hfold := soundness_fold g0 c0 m ih
            ((setCell g c { cell with status := CellVisibility.Revealed
              }).get_neighbours c)
            (setCell g c { cell with status := CellVisibility.Revealed })
            (evolves_trans hev (evolves_setCell_reveal hc hh))
            hdiff1 hOKn
          by_cases hfull : is_fully_revealed_and_marked
              (((setCell g c { cell with status := CellVisibility.Revealed
                }).get_neighbours c).foldl (fun h n => reveal_fuel m h n)
                (setCell g c { cell with status := CellVisibility.Revealed }))
              = true
          · rw [if_pos hfull]; exact hfold
          · rw [if_neg hfull]; exact hfold
        case neg =>
          rw [reveal_fuel_succ_nonzero m hp hc hh hcontent hk]
          by_cases hfull : is_fully_revealed_and_marked
              (setCell g c { cell with status := CellVisibility.Revealed })
              = true
          · rw [if_pos hfull]; exact hdiff1
          · rw [if_neg hfull]; exact hdiff1

/-- C3: on a `Playing` board with correct adjacency counts, revealing a
hidden `Empty(0)` cell reveals exactly the connected region of hidden
`Empty(0)` cells containing the target plus the hidden nonzero-count border
cells adjacent to that region, and changes the visibility of no other
cell. -/
theorem claim_C3_flood_fill (g : Game) (c : Coordinate) (cell : CellStatus)
    (hwf : WellFormed g) (hpl : g.state = GameState.Playing)
    (hcor : CorrectCounts g) (hc : getCell g c = some cell)
    (hh : cell.status = CellVisibility.Hidden)
    (h0 : cell.content = CellContent.Empty 0) :
    (∀ d, RB g c d →
      ∃ celld, getCell (g.reveal c) d = some celld ∧
        celld.status = CellVisibility.Revealed) ∧
    (∀ d celld0 celld, getCell g d = some celld0 →
      getCell (g.reveal c) d = some celld →
      celld.status ≠ celld0.status → RB g c d) := by
  unfold Game.reveal
  have hreg0 : RegionCell g c c := RegionCell.base ⟨cell, hc, hh, h0⟩
  have hdiff0 : DiffIn g g c := by
    intro d celld0 celld hd0 hd hne
    rw [hd0] at hd
    cases hd
    exact absurd rfl hne
  have hsound : DiffIn g (reveal_fuel (hiddenCount g + 1) g c) c :=
    soundness_master g c hcor (hiddenCount g + 1) g c (evolves_refl g) hdiff0
      (Or.inr (Or.inr (Or.inl hreg0)))
  obtain ⟨-, -, K4, K5, -⟩ :=
    reveal_master g (hiddenCount g + 1) g c (fun _ => False)
      ⟨hwf, hcor, evolves_refl g, Nat.le_succ _, Or.inl hpl,
        (fun cell0 hc0 => by
          rw [hc0] at hc
          cases hc
          rw [h0]
          intro hcon
          cases hcon),
        NewClosedExcept_of_self g _⟩
  have hclosed : NewClosedExcept g (reveal_fuel (hiddenCount g + 1) g c)
      (fun _ => False) :=
    NewClosedExcept_mono (fun d hd => hd.1) (K5 cell hc hh)
  have hev : evolves g (reveal_fuel (hiddenCount g + 1) g c) :=
    evolves_reveal_fuel _ g c
  have hstat : ∀ d celld0, getCell g d = some celld0 →
      celld0.status = CellVisibility.Hidden →
      ∃ celld, getCell (reveal_fuel (hiddenCount g + 1) g c) d = some celld ∧
        celld.content = celld0.content ∧
        (celld.status = CellVisibility.Hidden ∨
          celld.status = CellVisibility.Revealed) := by
    intro d celld0 hd0 hhid
    obtain ⟨celld, hd, hevc⟩ := evolves_getCell_some hev hd0
    refine ⟨celld, hd, hevc.1, ?_⟩
    rcases hevc.2 with heq | ⟨-, hrev⟩
    · exact Or.inl (heq.trans hhid)
    · exact Or.inr hrev
  have hcomp : ∀ d, RegionCell g c d →
      ∃ celld, getCell (reveal_fuel (hiddenCount g + 1) g c) d = some celld ∧
        celld.status = CellVisibility.Revealed ∧
        celld.content = CellContent.Empty 0 := by
    intro d hregd
    induction hregd with
    | base hb =>
      obtain ⟨cellc, hgc, hch, hc0⟩ := hb
      obtain ⟨celld, hd, hdcon, hHR⟩ := hstat c cellc hgc hch
      rcases hHR with hhid' | hrev
      · exact absurd hhid' (K4 celld hd)
      · exact ⟨celld, hd, hrev, by rw [hdcon, hc0]⟩
    | step hregd hcelle hadj ih =>
      obtain ⟨celld, hd, hdrev, hdcon⟩ := ih
      obtain ⟨cellE, hE, hEhid, hEcon⟩ := hcelle
      obtain ⟨celld0, hd0, hd0hid, hd0con⟩ := RegionCell_spec hregd
      obtain ⟨cellE', hE', hEcon', hEHR⟩ := hstat _ cellE hE hEhid
      have hnothid := hclosed _ celld0 celld not_false hd0 hd0hid hd hdrev
        hdcon _ cellE' (mem_get_neighbours_of_adjacent hadj) hE'
      rcases hEHR with hhid' | hrev
      · exact absurd hhid' hnothid
      · exact ⟨cellE', hE', hrev, by rw [hEcon', hEcon]⟩
  refine ⟨?_, hsound⟩
  intro d hRBd
  rcases hRBd with hregd | hbord
  · obtain ⟨celld, hd, hdrev, -⟩ := hcomp d hregd
    exact ⟨celld, hd, hdrev⟩
  · obtain ⟨⟨cellb, nb, hb0, hbhid, hbcon, hbne⟩, e, hrege, hadj⟩ := hbord
    obtain ⟨celle, he, herev, hecon⟩ := hcomp e hrege
    obtain ⟨celle0, he0, he0h, he0c⟩ := RegionCell_spec hrege
    obtain ⟨celld, hd, hdcon, hHR⟩ := hstat d cellb hb0 hbhid
    have hnothid := hclosed e celle0 celle not_false he0 he0h he herev
      hecon d celld (mem_get_neighbours_of_adjacent hadj) hd
    rcases hHR with hhid' | hrev
    · exact absurd hhid' hnothid
    · exact ⟨celld, hd, hrev⟩

theorem getCell_two {w h : Nat} {s : GameState} {a b : CellStatus}
    {c : Coordinate} {cell : CellStatus}
    (hc : getCell ⟨w, h, [[a, b]], s⟩ c = some cell) :
    (c = ⟨0, 0⟩ ∧ cell = a) ∨ (c = ⟨1, 0⟩ ∧ cell = b) := by
  unfold getCell at hc
  obtain ⟨x, y⟩ := c
  cases y with
  | succ n => simp at hc
  | zero =>
    simp only [List.getElem?_cons_zero, Option.some_bind] at hc
    cases x with
    | zero =>
      simp only [List.getElem?_cons_zero, Option.some.injEq] at hc
      exact Or.inl ⟨rfl, hc.symm⟩
    | succ m =>
      cases m with
      | zero =>
        simp only [List.getElem?_cons_succ, List.getElem?_cons_zero,
          Option.some.injEq] at hc
        exact Or.inr ⟨rfl, hc.symm⟩
      | succ k => simp at hc

theorem claim_C3_witness :
    ∃ celld,
      getCell (Game.reveal ⟨2, 1, [[⟨CellContent.Empty 0, CellVisibility.Hidden⟩,
          ⟨CellContent.Empty 0, CellVisibility.Hidden⟩]], GameState.Playing⟩
        ⟨0, 0⟩) ⟨1, 0⟩ = some celld ∧
      celld.status = CellVisibility.Revealed := by
  have hcor : CorrectCounts ⟨2, 1, [[⟨CellContent.Empty 0, CellVisibility.Hidden⟩,
      ⟨CellContent.Empty 0, CellVisibility.Hidden⟩]], GameState.Playing⟩ := by
    intro c cell n hcell hcon
    rcases getCell_two hcell with ⟨rfl, rfl⟩ | ⟨rfl, rfl⟩ <;>
      (simp only [CellContent.Empty.injEq] at hcon; subst hcon; decide)
  have hadj : Adjacent
      (⟨2, 1, [[⟨CellContent.Empty 0, CellVisibility.Hidden⟩,
        ⟨CellContent.Empty 0, CellVisibility.Hidden⟩]],
        GameState.Playing⟩ : Game).width
      (⟨2, 1, [[⟨CellContent.Empty 0, CellVisibility.Hidden⟩,
        ⟨CellContent.Empty 0, CellVisibility.Hidden⟩]],
        GameState.Playing⟩ : Game).height
      ⟨0, 0⟩ ⟨1, 0⟩ :=
    ⟨by decide, by decide, by decide, ⟨by decide, by decide⟩,
      ⟨by decide, by decide⟩⟩
  exact (claim_C3_flood_fill _ ⟨0, 0⟩
      ⟨CellContent.Empty 0, CellVisibility.Hidden⟩
      ⟨by decide, by decide⟩ rfl hcor (by decide) rfl rfl).1 ⟨1, 0⟩
    (Or.inl (RegionCell.step
      (RegionCell.base ⟨⟨CellContent.Empty 0, CellVisibility.Hidden⟩,
        by decide, rfl, rfl⟩)
      ⟨⟨CellContent.Empty 0, CellVisibility.Hidden⟩, by decide, rfl, rfl⟩
      hadj))
